import Mathlib

/-! An in-process TTL cache: two stores and their sweep.

Shallow embedding of `cache.go`, `cache_map.go` and `cache_sync_map.go`.

* A Go `interface{}` is a `Value`; an `item` struct that was put into an
  interface is `Value.boxed`.
* A Go map (and a `sync.Map`) is an association list of entries.  The order of
  the list is the order in which a `range` visits the entries, so a statement
  over every list is a statement over every iteration order.
* `time.Now().UnixNano()` is an explicit argument; `int64` arithmetic wraps
  around (`wrap64`).
* The channel `nh` (made with capacity 1) is the number of signals that sit in
  its buffer.  An operation that has to send into a full buffer does not
  return in this sequential model: its result is `none`.
* Locks and atomics are not modelled: every operation runs alone.
-/

namespace Cache

/-! ## Values and items (`cache.go`) -/

/-- A value held in a Go `interface{}`.  `boxed t v` is an `item{t, v}` struct
held in an interface. -/
inductive Value where
  | nil
  | int (n : Int)
  | str (s : String)
  | boxed (t : Int) (v : Value)
  deriving DecidableEq, Repr

/-- The struct `item`: `t` is the expiration instant in nanoseconds (0 when no
expiration was set), `v` the stored value. -/
structure item where
  t : Int
  v : Value
  deriving DecidableEq, Repr

/-- The constant `NoExpiration`. -/
def NoExpiration : Int := -1

/-- The constant `DefaultExpiration`. -/
def DefaultExpiration : Int := 0

/-- Two's complement wrap-around of an `int64` result. -/
def wrap64 (x : Int) : Int :=
  (x + 9223372036854775808) % 18446744073709551616 - 9223372036854775808

/-- The method `item.check`, at the clock reading `now`. -/
def item.check (i : item) (now : Int) : Bool :=
  decide (i.t > 0) && decide (now > i.t)

/-- An `item` assigned to a variable of type `interface{}`. -/
def item.box (i : item) : Value :=
  Value.boxed i.t i.v

/-! ## The mapping -/

/-- Map lookup `m[k]` / `sync.Map.Load`: the entry stored under `k`, if any. -/
def mapLoad {κ : Type} [DecidableEq κ] : List (κ × item) → κ → Option item
  | [], _ => none
  | (k', it) :: rest, k => if k' = k then some it else mapLoad rest k

/-- Map deletion `delete(m, k)` / `sync.Map.Delete`. -/
def mapDelete {κ : Type} [DecidableEq κ] (m : List (κ × item)) (k : κ) : List (κ × item) :=
  m.filter (fun e => decide (e.1 ≠ k))

/-- Map assignment `m[k] = it` / `sync.Map.Store`. -/
def mapStore {κ : Type} [DecidableEq κ] (m : List (κ × item)) (k : κ) (it : item) :
    List (κ × item) :=
  (k, it) :: mapDelete m k

/-! ## The wake channel -/

/-- Capacity of the channel `nh`: `make(chan bool, 1)`. -/
def nhCap : Nat := 1

/-- The send `nh <- true` with `n` signals in the buffer: the new buffer
content, or `none` when the buffer is full and the sender has to wait. -/
def chanSend (n : Nat) : Option Nat :=
  if n < nhCap then some (n + 1) else none

/-- The receive `<-nh` with `n` signals in the buffer: the new buffer content,
or `none` when the buffer is empty and the receiver has to wait. -/
def chanRecv (n : Nat) : Option Nat :=
  if 0 < n then some (n - 1) else none

/-! ## The sweep loop shared by both `_clear` methods -/

/-- One iteration of the `range` loop of `_clear`.  The state is the mapping,
the variable `min` and the number of entries visited so far; `clk i` is the
clock reading `check` takes while the `i`-th entry is visited, and `clk n`,
with `n` the number of entries, the reading taken after the loop. -/
def sweepStep {κ : Type} [DecidableEq κ] (clk : Nat → Int)
    (acc : List (κ × item) × Int × Nat) (e : κ × item) : List (κ × item) × Int × Nat :=
  if e.2.check (clk acc.2.2) then
    (mapDelete acc.1 e.1, acc.2.1, acc.2.2 + 1)
  else if acc.2.1 = 0 ∨ e.2.t < acc.2.1 then
    (acc.1, e.2.t, acc.2.2 + 1)
  else
    (acc.1, acc.2.1, acc.2.2 + 1)

/-- The whole `range` loop of `_clear` over the entries of `m`. -/
def sweepLoop {κ : Type} [DecidableEq κ] (clk : Nat → Int) (m : List (κ × item)) :
    List (κ × item) × Int × Nat :=
  m.foldl (sweepStep clk) (m, 0, 0)

/-- The value `_clear` stores in `nc` after the loop. -/
def sweepDelay (clk : Nat → Int) (r : Int × Nat) : Int :=
  if r.1 > 0 then wrap64 (r.1 - clk r.2) else 0

/-! ## `cacheMap` (`cache_map.go`) -/

/-- The struct `cacheMap` (the lock `l` is not modelled).  `cb` is the
registered callback, named by a number; `nh` is the number of buffered wake
signals. -/
structure cacheMap where
  m : List (String × item)
  et : Int
  nc : Int
  nt : Int
  cb : Option Nat
  nh : Nat
  deriving DecidableEq, Repr

/-- The constructor `New`. -/
def New (expire : Int) : cacheMap :=
  { m := [], et := expire, nc := 0, nt := 0, cb := none, nh := 0 }

/-- The method `cacheMap.Get`. -/
def cacheMap.Get (cm : cacheMap) (key : String) : Value × Bool :=
  match mapLoad cm.m key with
  | none => (Value.nil, false)
  | some vt => (vt.v, true)

/-- The assignment `old, loaded = cm.m[key]` into `old interface{}`: the map
element itself (the zero `item` when the key is absent) is put into `old`. -/
def cacheMap.loadOld (cm : cacheMap) (key : String) : Value × Bool :=
  match mapLoad cm.m key with
  | some it => (it.box, true)
  | none => (item.box { t := 0, v := Value.nil }, false)

/-- The method `cacheMap.set`, with the clock reading `nowTime`. -/
def cacheMap.set (cm : cacheMap) (key : String) (val : Value) (d : Int) (replace : Bool)
    (nowTime : Int) : Option (cacheMap × Value × Bool) :=
  if d = NoExpiration then
    let ol := if replace then cm.loadOld key else (Value.nil, false)
    some ({ cm with m := mapStore cm.m key { t := 0, v := val } }, ol)
  else
    let ex := if d = DefaultExpiration then cm.et else d
    let it : item := { t := wrap64 (nowTime + ex), v := val }
    let ol := if replace then cm.loadOld key else (Value.nil, false)
    let m1 := mapStore cm.m key it
    if cm.nc = 0 ∨ it.t < cm.nt then
      match chanSend cm.nh with
      | some n => some ({ cm with m := m1, nc := ex, nt := it.t, nh := n }, ol)
      | none => none
    else
      some ({ cm with m := m1 }, ol)

/-- The method `cacheMap.Set`. -/
def cacheMap.Set (cm : cacheMap) (key : String) (val : Value) (d : Int) (nowTime : Int) :
    Option cacheMap :=
  (cm.set key val d true nowTime).map (fun r => r.1)

/-- The method `cacheMap.Replace`. -/
def cacheMap.Replace (cm : cacheMap) (key : String) (val : Value) (d : Int) (nowTime : Int) :
    Option (cacheMap × Value × Bool) :=
  cm.set key val d true nowTime

/-- The method `cacheMap.Delete`; the second component is the returned error
(`none` is the nil error). -/
def cacheMap.Delete (cm : cacheMap) (k : String) : cacheMap × Option String :=
  ({ cm with m := mapDelete cm.m k }, none)

/-- The method `cacheMap.Clean`. -/
def cacheMap.Clean (cm : cacheMap) : cacheMap × Option String :=
  ({ cm with m := [] }, none)

/-- The method `cacheMap.ClearCallback`. -/
def cacheMap.ClearCallback (cm : cacheMap) (f : Option Nat) : cacheMap × Option String :=
  ({ cm with cb := f }, none)

/-- The method `cacheMap.Range`: the calls `f(k, v.v)` it makes, in order. -/
def cacheMap.Range (cm : cacheMap) : List (String × Value) :=
  cm.m.map (fun e => (e.1, e.2.v))

/-- The method `cacheMap._clear`, with `clk i` the `i`-th clock reading. -/
def cacheMap._clearAt (cm : cacheMap) (clk : Nat → Int) : cacheMap :=
  let r := sweepLoop clk cm.m
  { cm with m := r.1, nc := sweepDelay clk r.2 }

/-- The method `cacheMap._clear` when every clock reading of the sweep is `now`. -/
def cacheMap._clear (cm : cacheMap) (now : Int) : cacheMap :=
  cm._clearAt (fun _ => now)

/-! ## `cacheSyncMap` (`cache_sync_map.go`) -/

/-- The struct `cacheSyncMap`; keys are interface values. -/
structure cacheSyncMap where
  m : List (Value × item)
  et : Int
  cb : Option Nat
  nc : Int
  nt : Int
  nh : Nat
  deriving DecidableEq, Repr

/-- The constructor `NewS`. -/
def NewS (expire : Int) : cacheSyncMap :=
  { m := [], et := expire, cb := none, nc := 0, nt := 0, nh := 0 }

/-- The method `cacheSyncMap.Get`. -/
def cacheSyncMap.Get (csm : cacheSyncMap) (k : Value) : Value × Bool :=
  match mapLoad csm.m k with
  | some val => (val.v, true)
  | none => (Value.nil, false)

/-- The call `csm.m.LoadOrStore(key, it)`: the new mapping, the `actual`
interface value and `loaded`. -/
def LoadOrStore (m : List (Value × item)) (key : Value) (it : item) :
    List (Value × item) × Value × Bool :=
  match mapLoad m key with
  | some cur => (m, cur.box, true)
  | none => (mapStore m key it, it.box, false)

/-- The branch `if replace { LoadOrStore } else { Store }` of `cacheSyncMap.set`. -/
def cacheSyncMap.put (m : List (Value × item)) (key : Value) (it : item) (replace : Bool) :
    List (Value × item) × Value × Bool :=
  if replace then LoadOrStore m key it else (mapStore m key it, Value.nil, false)

/-- The method `cacheSyncMap.set`, with the clock reading `nowTime`. -/
def cacheSyncMap.set (csm : cacheSyncMap) (key val : Value) (d : Int) (replace : Bool)
    (nowTime : Int) : Option (cacheSyncMap × Value × Bool) :=
  if d = NoExpiration then
    let r := cacheSyncMap.put csm.m key { t := 0, v := val } replace
    some ({ csm with m := r.1 }, r.2)
  else
    let ex := if d = DefaultExpiration then csm.et else d
    let it : item := { t := wrap64 (nowTime + ex), v := val }
    let r := cacheSyncMap.put csm.m key it replace
    if csm.nc = 0 ∨ it.t < csm.nt then
      match chanSend csm.nh with
      | some n => some ({ csm with m := r.1, nc := ex, nt := it.t, nh := n }, r.2)
      | none => none
    else
      some ({ csm with m := r.1 }, r.2)

/-- The method `cacheSyncMap.Add`. -/
def cacheSyncMap.Add (csm : cacheSyncMap) (key val : Value) (d : Int) (nowTime : Int) :
    Option (cacheSyncMap × Bool) :=
  match mapLoad csm.m key with
  | some _ => some (csm, false)
  | none => (csm.set key val d false nowTime).map (fun r => (r.1, true))

/-- The method `cacheSyncMap.Set`. -/
def cacheSyncMap.Set (csm : cacheSyncMap) (key val : Value) (d : Int) (nowTime : Int) :
    Option cacheSyncMap :=
  (csm.set key val d false nowTime).map (fun r => r.1)

/-- The method `cacheSyncMap.Replace`. -/
def cacheSyncMap.Replace (csm : cacheSyncMap) (key val : Value) (d : Int) (nowTime : Int) :
    Option (cacheSyncMap × Value × Bool) :=
  csm.set key val d true nowTime

/-- The method `cacheSyncMap.Delete`. -/
def cacheSyncMap.Delete (csm : cacheSyncMap) (k : Value) : cacheSyncMap × Option String :=
  ({ csm with m := mapDelete csm.m k }, none)

/-- The method `cacheSyncMap.Clean`. -/
def cacheSyncMap.Clean (csm : cacheSyncMap) : Option (cacheSyncMap × Option String) :=
  match chanSend csm.nh with
  | some n => some ({ csm with m := [], nc := 0, nt := 0, nh := n }, none)
  | none => none

/-- The method `cacheSyncMap.ClearCallback`. -/
def cacheSyncMap.ClearCallback (csm : cacheSyncMap) (f : Option Nat) :
    cacheSyncMap × Option String :=
  ({ csm with cb := f }, none)

/-- The method `cacheSyncMap.Range`: the calls `f(k, v.(item))` it makes, in
order. -/
def cacheSyncMap.Range (csm : cacheSyncMap) : List (Value × Value) :=
  csm.m.map (fun e => (e.1, e.2.box))

/-- The method `cacheSyncMap._clear`, with `clk i` the `i`-th clock reading. -/
def cacheSyncMap._clearAt (csm : cacheSyncMap) (clk : Nat → Int) : cacheSyncMap :=
  let r := sweepLoop clk csm.m
  { csm with m := r.1, nc := sweepDelay clk r.2 }

/-- The method `cacheSyncMap._clear` when every clock reading of the sweep is
`now`. -/
def cacheSyncMap._clear (csm : cacheSyncMap) (now : Int) : cacheSyncMap :=
  csm._clearAt (fun _ => now)

/-! ## Sequences of operations -/

/-- The reaper taking one wake signal off the channel of a `cacheMap`
(`<-cm.nh` in `clear`). -/
def cacheMap.recv (cm : cacheMap) : Option cacheMap :=
  (chanRecv cm.nh).map (fun n => { cm with nh := n })

/-- The reaper taking one wake signal off the channel of a `cacheSyncMap`
(`<-csm.nh` in `clear`). -/
def cacheSyncMap.recv (csm : cacheSyncMap) : Option cacheSyncMap :=
  (chanRecv csm.nh).map (fun n => { csm with nh := n })

/-- One thing that can happen to a `cacheMap`: a call of one of its methods by a
client, a sweep by the reaper, or the reaper taking a wake signal. -/
inductive cmOp where
  | Set (key : String) (val : Value) (d : Int) (nowTime : Int)
  | Replace (key : String) (val : Value) (d : Int) (nowTime : Int)
  | Delete (k : String)
  | Clean
  | ClearCallback (f : Option Nat)
  | sweep (clk : Nat → Int)
  | recv

/-- The store after one event, `none` when the event cannot complete. -/
def cmOp.apply : cmOp → cacheMap → Option cacheMap
  | cmOp.Set key val d nowTime, cm => cm.Set key val d nowTime
  | cmOp.Replace key val d nowTime, cm => (cm.Replace key val d nowTime).map (fun r => r.1)
  | cmOp.Delete k, cm => some (cm.Delete k).1
  | cmOp.Clean, cm => some cm.Clean.1
  | cmOp.ClearCallback f, cm => some (cm.ClearCallback f).1
  | cmOp.sweep clk, cm => some (cm._clearAt clk)
  | cmOp.recv, cm => cm.recv

/-- The store after a sequence of events, `none` when one of them cannot
complete. -/
def cmRun : List cmOp → cacheMap → Option cacheMap
  | [], cm => some cm
  | op :: ops, cm => (op.apply cm).bind (cmRun ops)

/-- The event is neither `Clean` nor a `Set`, `Replace` or `Delete` of the key
`k`. -/
def cmOp.avoids (k : String) : cmOp → Bool
  | cmOp.Set key _ _ _ => decide (key ≠ k)
  | cmOp.Replace key _ _ _ => decide (key ≠ k)
  | cmOp.Delete key => decide (key ≠ k)
  | cmOp.Clean => false
  | cmOp.ClearCallback _ => true
  | cmOp.sweep _ => true
  | cmOp.recv => true

/-- One thing that can happen to a `cacheSyncMap`. -/
inductive csmOp where
  | Set (key val : Value) (d : Int) (nowTime : Int)
  | Replace (key val : Value) (d : Int) (nowTime : Int)
  | Add (key val : Value) (d : Int) (nowTime : Int)
  | Delete (k : Value)
  | Clean
  | ClearCallback (f : Option Nat)
  | sweep (clk : Nat → Int)
  | recv

/-- The store after one event, `none` when the event cannot complete. -/
def csmOp.apply : csmOp → cacheSyncMap → Option cacheSyncMap
  | csmOp.Set key val d nowTime, csm => csm.Set key val d nowTime
  | csmOp.Replace key val d nowTime, csm => (csm.Replace key val d nowTime).map (fun r => r.1)
  | csmOp.Add key val d nowTime, csm => (csm.Add key val d nowTime).map (fun r => r.1)
  | csmOp.Delete k, csm => some (csm.Delete k).1
  | csmOp.Clean, csm => csm.Clean.map (fun r => r.1)
  | csmOp.ClearCallback f, csm => some (csm.ClearCallback f).1
  | csmOp.sweep clk, csm => some (csm._clearAt clk)
  | csmOp.recv, csm => csm.recv

/-- The store after a sequence of events, `none` when one of them cannot
complete. -/
def csmRun : List csmOp → cacheSyncMap → Option cacheSyncMap
  | [], csm => some csm
  | op :: ops, csm => (op.apply csm).bind (csmRun ops)

/-- The event is neither `Clean` nor a `Set`, `Replace`, `Add` or `Delete` of
the key `k`. -/
def csmOp.avoids (k : Value) : csmOp → Bool
  | csmOp.Set key _ _ _ => decide (key ≠ k)
  | csmOp.Replace key _ _ _ => decide (key ≠ k)
  | csmOp.Add key _ _ _ => decide (key ≠ k)
  | csmOp.Delete key => decide (key ≠ k)
  | csmOp.Clean => false
  | csmOp.ClearCallback _ => true
  | csmOp.sweep _ => true
  | csmOp.recv => true

/-- The mapping holds `v` under `k` without expiration, and no entry under `k`
has an expiration. -/
def pinned {κ : Type} [DecidableEq κ] (k : κ) (v : Value) (m : List (κ × item)) : Prop :=
  mapLoad m k = some { t := 0, v := v } ∧ ∀ e ∈ m, e.1 = k → e.2.t = 0

/-- The expiration instant `t` of an entry written at the clock reading `now`
with the duration argument `d` on a store whose default duration is `et`: the
three cases of the duration argument, in `int64` arithmetic. -/
def expiresAtFor (et d now t : Int) : Prop :=
  (d = NoExpiration → t = 0) ∧
  (d = DefaultExpiration → t = wrap64 (now + et)) ∧
  (d ≠ NoExpiration → d ≠ DefaultExpiration → t = wrap64 (now + d))

instance (et d now t : Int) : Decidable (expiresAtFor et d now t) := by
  unfold expiresAtFor
  infer_instance

/-! ## Facts about the mapping -/

theorem mapLoad_mapDelete_self {κ : Type} [DecidableEq κ] (m : List (κ × item)) (k : κ) :
    mapLoad (mapDelete m k) k = none := by
  induction m with
  | nil => rfl
  | cons e rest ih =>
    obtain ⟨k1, it⟩ := e
    by_cases h : k1 = k
    · simpa [mapDelete, List.filter_cons, h] using ih
    · simpa [mapDelete, List.filter_cons, h, mapLoad] using ih

theorem mapLoad_mapDelete_ne {κ : Type} [DecidableEq κ] (m : List (κ × item)) (k k1 : κ)
    (h : k1 ≠ k) : mapLoad (mapDelete m k) k1 = mapLoad m k1 := by
  induction m with
  | nil => rfl
  | cons e rest ih =>
    obtain ⟨k2, it⟩ := e
    by_cases h2 : k2 = k
    · subst h2
      have h3 : ¬ k2 = k1 := fun hh => h hh.symm
      simpa [mapDelete, List.filter_cons, mapLoad, h3] using ih
    · by_cases h4 : k2 = k1
      · subst h4
        simp [mapDelete, List.filter_cons, mapLoad, h]
      · simpa [mapDelete, List.filter_cons, mapLoad, h2, h4] using ih

theorem mapLoad_mapStore_self {κ : Type} [DecidableEq κ] (m : List (κ × item)) (k : κ)
    (it : item) : mapLoad (mapStore m k it) k = some it := by
  simp [mapStore, mapLoad]

theorem mapLoad_mapStore_ne {κ : Type} [DecidableEq κ] (m : List (κ × item)) (k k1 : κ)
    (it : item) (h : k1 ≠ k) : mapLoad (mapStore m k it) k1 = mapLoad m k1 := by
  have h3 : ¬ k = k1 := fun hh => h hh.symm
  simp [mapStore, mapLoad, h3, mapLoad_mapDelete_ne m k k1 h]

/-! ## Facts about `set` -/

theorem chanSend_zero : chanSend 0 = some 1 := by
  simp [chanSend, nhCap]

theorem cm_set_isSome (cm : cacheMap) (key : String) (val : Value) (d : Int)
    (replace : Bool) (nowTime : Int) (h : cm.nh = 0) :
    (cm.set key val d replace nowTime).isSome = true := by
  unfold cacheMap.set
  simp only [h, chanSend_zero]
  split_ifs <;> rfl

theorem csm_set_isSome (csm : cacheSyncMap) (key val : Value) (d : Int)
    (replace : Bool) (nowTime : Int) (h : csm.nh = 0) :
    (csm.set key val d replace nowTime).isSome = true := by
  unfold cacheSyncMap.set
  simp only [h, chanSend_zero]
  split_ifs <;> rfl

/-- What a returning `cacheMap.set` leaves in the mapping and returns. -/
theorem cm_set_eq_some {cm : cacheMap} {key : String} {val : Value} {d : Int}
    {replace : Bool} {nowTime : Int} {res : cacheMap × Value × Bool}
    (h : cm.set key val d replace nowTime = some res) :
    res.1.m = mapStore cm.m key
        { t := if d = NoExpiration then 0
               else wrap64 (nowTime + if d = DefaultExpiration then cm.et else d),
          v := val } ∧
      res.1.et = cm.et ∧ res.1.cb = cm.cb ∧
      res.2 = if replace then cm.loadOld key else (Value.nil, false) := by
  unfold cacheMap.set at h
  by_cases hd : d = NoExpiration
  · rw [if_pos hd] at h
    rw [if_pos hd]
    simp only [Option.some.injEq] at h
    subst h
    exact ⟨rfl, rfl, rfl, rfl⟩
  · rw [if_neg hd] at h
    rw [if_neg hd]
    dsimp only at h
    by_cases hs : cm.nc = 0 ∨
        wrap64 (nowTime + if d = DefaultExpiration then cm.et else d) < cm.nt
    · rw [if_pos hs] at h
      cases hc : chanSend cm.nh with
      | none => simp [hc] at h
      | some n =>
        simp only [hc, Option.some.injEq] at h
        subst h
        exact ⟨rfl, rfl, rfl, rfl⟩
    · rw [if_neg hs] at h
      simp only [Option.some.injEq] at h
      subst h
      exact ⟨rfl, rfl, rfl, rfl⟩

/-- What a returning `cacheSyncMap.set` leaves in the mapping and returns. -/
theorem csm_set_eq_some {csm : cacheSyncMap} {key val : Value} {d : Int}
    {replace : Bool} {nowTime : Int} {res : cacheSyncMap × Value × Bool}
    (h : csm.set key val d replace nowTime = some res) :
    (res.1.m, res.2) = cacheSyncMap.put csm.m key
        { t := if d = NoExpiration then 0
               else wrap64 (nowTime + if d = DefaultExpiration then csm.et else d),
          v := val } replace ∧
      res.1.et = csm.et ∧ res.1.cb = csm.cb := by
  unfold cacheSyncMap.set at h
  by_cases hd : d = NoExpiration
  · rw [if_pos hd] at h
    rw [if_pos hd]
    simp only [Option.some.injEq] at h
    subst h
    exact ⟨rfl, rfl, rfl⟩
  · rw [if_neg hd] at h
    rw [if_neg hd]
    dsimp only at h
    by_cases hs : csm.nc = 0 ∨
        wrap64 (nowTime + if d = DefaultExpiration then csm.et else d) < csm.nt
    · rw [if_pos hs] at h
      cases hc : chanSend csm.nh with
      | none => simp [hc] at h
      | some n =>
        simp only [hc, Option.some.injEq] at h
        subst h
        exact ⟨rfl, rfl, rfl⟩
    · rw [if_neg hs] at h
      simp only [Option.some.injEq] at h
      subst h
      exact ⟨rfl, rfl, rfl⟩

theorem cm_Set_eq_some {cm cm1 : cacheMap} {key : String} {val : Value} {d : Int}
    {nowTime : Int} (h : cm.Set key val d nowTime = some cm1) :
    ∃ ol, cm.set key val d true nowTime = some (cm1, ol) := by
  unfold cacheMap.Set at h
  cases hs : cm.set key val d true nowTime with
  | none => simp [hs] at h
  | some r =>
    obtain ⟨c, ol⟩ := r
    simp only [hs, Option.map_some', Option.some.injEq] at h
    subst h
    exact ⟨ol, rfl⟩

theorem csm_Set_eq_some {csm csm1 : cacheSyncMap} {key val : Value} {d : Int}
    {nowTime : Int} (h : csm.Set key val d nowTime = some csm1) :
    ∃ ol, csm.set key val d false nowTime = some (csm1, ol) := by
  unfold cacheSyncMap.Set at h
  cases hs : csm.set key val d false nowTime with
  | none => simp [hs] at h
  | some r =>
    obtain ⟨c, ol⟩ := r
    simp only [hs, Option.map_some', Option.some.injEq] at h
    subst h
    exact ⟨ol, rfl⟩

/-! ## Reading and writing one key -/

theorem cm_Get_of_load (cm : cacheMap) (k : String) (it : item)
    (h : mapLoad cm.m k = some it) : cm.Get k = (it.v, true) := by
  simp [cacheMap.Get, h]

theorem csm_Get_of_load (csm : cacheSyncMap) (k : Value) (it : item)
    (h : mapLoad csm.m k = some it) : csm.Get k = (it.v, true) := by
  simp [cacheSyncMap.Get, h]

theorem cm_Get_congr (cm cm1 : cacheMap) (k : String)
    (h : mapLoad cm1.m k = mapLoad cm.m k) : cm1.Get k = cm.Get k := by
  simp [cacheMap.Get, h]

theorem csm_Get_congr (csm csm1 : cacheSyncMap) (k : Value)
    (h : mapLoad csm1.m k = mapLoad csm.m k) : csm1.Get k = csm.Get k := by
  simp [cacheSyncMap.Get, h]

/-- C1: in both stores, when `Set(k, v, d)` has returned, `Get(k)` is `(v, true)`
whether or not `k` was stored before, and `Get` of any other key is what it was
before the `Set`.  `Set` returns whenever the wake channel is empty. -/
theorem set_then_get :
    (∀ (cm cm1 : cacheMap) (k : String) (v : Value) (d now : Int),
      cm.Set k v d now = some cm1 →
        cm1.Get k = (v, true) ∧ ∀ k1 : String, k1 ≠ k → cm1.Get k1 = cm.Get k1) ∧
    (∀ (csm csm1 : cacheSyncMap) (k v : Value) (d now : Int),
      csm.Set k v d now = some csm1 →
        csm1.Get k = (v, true) ∧ ∀ k1 : Value, k1 ≠ k → csm1.Get k1 = csm.Get k1) ∧
    (∀ (cm : cacheMap) (k : String) (v : Value) (d now : Int),
      cm.nh = 0 → (cm.Set k v d now).isSome = true) ∧
    (∀ (csm : cacheSyncMap) (k v : Value) (d now : Int),
      csm.nh = 0 → (csm.Set k v d now).isSome = true) := by
  refine ⟨?_, ?_, ?_, ?_⟩
  · intro cm cm1 k v d now h
    obtain ⟨ol, hs⟩ := cm_Set_eq_some h
    have hm := (cm_set_eq_some hs).1
    simp only at hm
    constructor
    · exact cm_Get_of_load cm1 k _ (by rw [hm]; exact mapLoad_mapStore_self _ _ _)
    · intro k1 hk
      exact cm_Get_congr cm cm1 k1 (by rw [hm]; exact mapLoad_mapStore_ne _ _ _ _ hk)
  · intro csm csm1 k v d now h
    obtain ⟨ol, hs⟩ := csm_Set_eq_some h
    have hm := congrArg Prod.fst (csm_set_eq_some hs).1
    simp only [cacheSyncMap.put, Bool.false_eq_true, if_false] at hm
    constructor
    · exact csm_Get_of_load csm1 k _ (by rw [hm]; exact mapLoad_mapStore_self _ _ _)
    · intro k1 hk
      exact csm_Get_congr csm csm1 k1
        (by rw [hm]; exact mapLoad_mapStore_ne _ _ _ _ hk)
  · intro cm k v d now h
    simp [cacheMap.Set, cm_set_isSome cm k v d true now h]
  · intro csm k v d now h
    simp [cacheSyncMap.Set, csm_set_isSome csm k v d false now h]

/-- Witness for C1: a store that already holds "a" is written again with the
default duration. -/
theorem set_then_get_witness :
    (cacheMap.mk [("a", ⟨0, Value.int 7⟩)] 60 0 0 none 0).Set "a" (Value.int 1)
        DefaultExpiration 100 =
        some (cacheMap.mk [("a", ⟨160, Value.int 1⟩)] 60 60 160 none 1) ∧
      (cacheMap.mk [("a", ⟨160, Value.int 1⟩)] 60 60 160 none 1).Get "a" =
        (Value.int 1, true) :=
  ⟨by decide,
    (set_then_get.1 (cacheMap.mk [("a", ⟨0, Value.int 7⟩)] 60 0 0 none 0) _ "a" (Value.int 1)
      DefaultExpiration 100 (by decide)).1⟩

/-- Two mappings with the same keys and values in the same places, whatever
their expiration instants, load the same value under every key. -/
theorem mapLoad_values {κ : Type} [DecidableEq κ] (m m1 : List (κ × item)) (k : κ)
    (h : m.map (fun e => (e.1, e.2.v)) = m1.map (fun e => (e.1, e.2.v))) :
    (mapLoad m k).map (fun it => it.v) = (mapLoad m1 k).map (fun it => it.v) := by
  induction m generalizing m1 with
  | nil =>
    cases m1 with
    | nil => rfl
    | cons e1 r1 => simp at h
  | cons e r ih =>
    cases m1 with
    | nil => simp at h
    | cons e1 r1 =>
      obtain ⟨k0, it0⟩ := e
      obtain ⟨k1, it1⟩ := e1
      simp only [List.map_cons, List.cons.injEq, Prod.mk.injEq] at h
      obtain ⟨⟨hk, hv⟩, hr⟩ := h
      subst hk
      by_cases hkk : k0 = k
      · simp [mapLoad, hkk, hv]
      · simpa [mapLoad, hkk] using ih r1 hr

/-- C2: in both stores `Get(k)` is `(stored value, true)` exactly when `k` is in
the mapping and `(nil, false)` exactly when it is not; an entry that `check`
finds expired at a clock reading `now` is returned all the same, and two stores
whose mappings differ only in the expiration instants answer every `Get` alike. -/
theorem get_ignores_expiry :
    (∀ (cm : cacheMap) (k : String),
      (∀ it, mapLoad cm.m k = some it → cm.Get k = (it.v, true)) ∧
      (mapLoad cm.m k = none → cm.Get k = (Value.nil, false)) ∧
      ((cm.Get k).2 = true ↔ ∃ it, mapLoad cm.m k = some it) ∧
      (∀ it now, mapLoad cm.m k = some it → it.check now = true → cm.Get k = (it.v, true)) ∧
      (∀ cm1 : cacheMap, cm.m.map (fun e => (e.1, e.2.v)) = cm1.m.map (fun e => (e.1, e.2.v)) →
        cm.Get k = cm1.Get k)) ∧
    (∀ (csm : cacheSyncMap) (k : Value),
      (∀ it, mapLoad csm.m k = some it → csm.Get k = (it.v, true)) ∧
      (mapLoad csm.m k = none → csm.Get k = (Value.nil, false)) ∧
      ((csm.Get k).2 = true ↔ ∃ it, mapLoad csm.m k = some it) ∧
      (∀ it now, mapLoad csm.m k = some it → it.check now = true → csm.Get k = (it.v, true)) ∧
      (∀ csm1 : cacheSyncMap,
        csm.m.map (fun e => (e.1, e.2.v)) = csm1.m.map (fun e => (e.1, e.2.v)) →
        csm.Get k = csm1.Get k)) := by
  constructor
  · intro cm k
    refine ⟨fun it h => cm_Get_of_load cm k it h, fun h => by simp [cacheMap.Get, h], ?_,
      fun it _ h _ => cm_Get_of_load cm k it h, ?_⟩
    · cases h : mapLoad cm.m k <;> simp [cacheMap.Get, h]
    · intro cm1 hm
      have hv := mapLoad_values cm.m cm1.m k hm
      unfold cacheMap.Get
      cases h : mapLoad cm.m k <;> cases h1 : mapLoad cm1.m k <;> simp_all
  · intro csm k
    refine ⟨fun it h => csm_Get_of_load csm k it h, fun h => by simp [cacheSyncMap.Get, h], ?_,
      fun it _ h _ => csm_Get_of_load csm k it h, ?_⟩
    · cases h : mapLoad csm.m k <;> simp [cacheSyncMap.Get, h]
    · intro csm1 hm
      have hv := mapLoad_values csm.m csm1.m k hm
      unfold cacheSyncMap.Get
      cases h : mapLoad csm.m k <;> cases h1 : mapLoad csm1.m k <;> simp_all

/-- Witness for C2: the entry under "a" expired at 50, the clock reads 100, and
`Get` still returns its value. -/
theorem get_ignores_expiry_witness :
    item.check ⟨50, Value.str "x"⟩ 100 = true ∧
      (cacheMap.mk [("a", ⟨50, Value.str "x"⟩)] 60 0 0 none 0).Get "a" =
        (Value.str "x", true) :=
  ⟨by decide,
    (get_ignores_expiry.1 (cacheMap.mk [("a", ⟨50, Value.str "x"⟩)] 60 0 0 none 0) "a").2.2.2.1
      ⟨50, Value.str "x"⟩ 100 (by decide) (by decide)⟩

/-! ## `Replace` -/

/-- C3 (the code departs from the claim): `Replace` hands back the stored `item`
struct, not the value in it.  After `Set(k, 1, 5)` at clock reading 100,
`Replace(k, 2, 5)` returns `(item{105, 1}, true)` in both stores.  On a store
without `k`, `cacheMap.Replace` returns `(item{0, nil}, false)` and
`cacheSyncMap.Replace` returns the item it has just stored,
`(item{105, 2}, false)`; neither returns nil. -/
theorem replace_returns_item :
    (((New 60).Set "a" (Value.int 1) 5 100).bind
        (fun cm => cm.Replace "a" (Value.int 2) 5 100)).map (fun r => r.2) =
      some (Value.boxed 105 (Value.int 1), true) ∧
    ((New 60).Replace "a" (Value.int 2) 5 100).map (fun r => r.2) =
      some (Value.boxed 0 Value.nil, false) ∧
    (((NewS 60).Set (Value.str "a") (Value.int 1) 5 100).bind
        (fun csm => csm.Replace (Value.str "a") (Value.int 2) 5 100)).map (fun r => r.2) =
      some (Value.boxed 105 (Value.int 1), true) ∧
    ((NewS 60).Replace (Value.str "a") (Value.int 2) 5 100).map (fun r => r.2) =
      some (Value.boxed 105 (Value.int 2), false) := by
  decide

/-- C4 (the code departs from the claim): `cacheMap.Replace` leaves the same
store as `cacheMap.Set`, but `cacheSyncMap.Replace` goes through `LoadOrStore`
and does not overwrite a key that is present.  After `Set("a", 1, NoExpiration)`,
`Replace("a", 2, 5)` at clock reading 100 leaves `Get("a") = (1, true)` and sets
the schedule to `nc = 5`, `nt = 105`, while `Set("a", 2, 5)` from the same state
leaves `Get("a") = (2, true)`. -/
theorem syncmap_replace_keeps_old :
    (∀ (cm : cacheMap) (k : String) (v : Value) (d now : Int),
      (cm.Replace k v d now).map (fun r => r.1) = cm.Set k v d now) ∧
    (((NewS 60).Set (Value.str "a") (Value.int 1) NoExpiration 100).bind
        (fun csm => csm.Replace (Value.str "a") (Value.int 2) 5 100)).map
          (fun r => (r.1.Get (Value.str "a"), r.1.m, r.1.nc, r.1.nt)) =
      some ((Value.int 1, true), [(Value.str "a", ⟨0, Value.int 1⟩)], 5, 105) ∧
    (((NewS 60).Set (Value.str "a") (Value.int 1) NoExpiration 100).bind
        (fun csm => csm.Set (Value.str "a") (Value.int 2) 5 100)).map
          (fun r => (r.Get (Value.str "a"), r.m, r.nc, r.nt)) =
      some ((Value.int 2, true), [(Value.str "a", ⟨105, Value.int 2⟩)], 5, 105) := by
  refine ⟨fun cm k v d now => rfl, by decide, by decide⟩

/-! ## `Add`, `Delete`, `Clean` -/

theorem csm_Add_present (csm : cacheSyncMap) (k v : Value) (d now : Int) (it : item)
    (h : mapLoad csm.m k = some it) : csm.Add k v d now = some (csm, false) := by
  simp [cacheSyncMap.Add, h]

theorem csm_Add_absent (csm : cacheSyncMap) (k v : Value) (d now : Int)
    (h : mapLoad csm.m k = none) :
    csm.Add k v d now = (csm.Set k v d now).map (fun s => (s, true)) := by
  simp [cacheSyncMap.Add, cacheSyncMap.Set, h, Function.comp_def]

theorem csm_Set_load {csm csm1 : cacheSyncMap} {k v : Value} {d now : Int}
    (h : csm.Set k v d now = some csm1) :
    ∃ t, mapLoad csm1.m k = some { t := t, v := v } := by
  obtain ⟨ol, hs⟩ := csm_Set_eq_some h
  have hm := congrArg Prod.fst (csm_set_eq_some hs).1
  simp only [cacheSyncMap.put, Bool.false_eq_true, if_false] at hm
  exact ⟨_, by rw [hm]; exact mapLoad_mapStore_self _ _ _⟩

/-- C5: `cacheSyncMap.Add` on a key that is present returns false and leaves the
whole store as it was; on an absent key it returns true and leaves the store
`Set` leaves (and returns exactly when `Set` does, in particular whenever the
wake channel is empty).  So on a store without `k`, `Add(k, v1, _)` returns
true, a following `Add(k, v2, _)` returns false and changes nothing, and
`Get(k)` is `(v1, true)`. -/
theorem add_only_adds :
    (∀ (csm : cacheSyncMap) (k v : Value) (d now : Int),
      (∃ it, mapLoad csm.m k = some it) → csm.Add k v d now = some (csm, false)) ∧
    (∀ (csm : cacheSyncMap) (k v : Value) (d now : Int),
      mapLoad csm.m k = none →
        csm.Add k v d now = (csm.Set k v d now).map (fun s => (s, true))) ∧
    (∀ (csm : cacheSyncMap) (k v : Value) (d now : Int),
      mapLoad csm.m k = none → csm.nh = 0 → (csm.Add k v d now).isSome = true) ∧
    (∀ (csm csm1 : cacheSyncMap) (k v1 v2 : Value) (d1 d2 now1 now2 : Int) (r1 : Bool),
      mapLoad csm.m k = none → csm.Add k v1 d1 now1 = some (csm1, r1) →
        r1 = true ∧ csm1.Add k v2 d2 now2 = some (csm1, false) ∧
          csm1.Get k = (v1, true)) := by
  refine ⟨?_, csm_Add_absent, ?_, ?_⟩
  · rintro csm k v d now ⟨it, h⟩
    exact csm_Add_present csm k v d now it h
  · intro csm k v d now h h0
    rw [csm_Add_absent csm k v d now h]
    simp [cacheSyncMap.Set, csm_set_isSome csm k v d false now h0]
  · intro csm csm1 k v1 v2 d1 d2 now1 now2 r1 h ha
    rw [csm_Add_absent csm k v1 d1 now1 h] at ha
    cases hs : csm.Set k v1 d1 now1 with
    | none => simp [hs] at ha
    | some c =>
      simp only [hs, Option.map_some', Option.some.injEq, Prod.mk.injEq] at ha
      obtain ⟨hc, hr⟩ := ha
      subst hc
      obtain ⟨t, hl⟩ := csm_Set_load hs
      exact ⟨hr.symm, csm_Add_present c k v2 d2 now2 _ hl, csm_Get_of_load c k _ hl⟩

/-- Witness for C5: two `Add`s of the key "a" on a fresh store. -/
theorem add_only_adds_witness :
    mapLoad (NewS 60).m (Value.str "a") = none ∧
      (NewS 60).Add (Value.str "a") (Value.int 1) 5 100 =
        some (cacheSyncMap.mk [(Value.str "a", ⟨105, Value.int 1⟩)] 60 none 5 105 1, true) ∧
      (cacheSyncMap.mk [(Value.str "a", ⟨105, Value.int 1⟩)] 60 none 5 105 1).Add
          (Value.str "a") (Value.int 2) 5 101 =
        some (cacheSyncMap.mk [(Value.str "a", ⟨105, Value.int 1⟩)] 60 none 5 105 1, false) ∧
      (cacheSyncMap.mk [(Value.str "a", ⟨105, Value.int 1⟩)] 60 none 5 105 1).Get
          (Value.str "a") = (Value.int 1, true) :=
  ⟨by decide, by decide,
    (add_only_adds.2.2.2 (NewS 60) _ (Value.str "a") (Value.int 1) (Value.int 2) 5 5 100 101
      true (by decide) (by decide)).2⟩

/-- C6: in both stores `Delete(k)` returns the nil error whether or not `k` is
present, `Get(k)` is `(nil, false)` afterwards, the entry of every other key
(value and expiration instant) is the one stored before, and the schedule is
untouched. -/
theorem delete_removes_one_key :
    (∀ (cm : cacheMap) (k : String),
      (cm.Delete k).2 = none ∧ (cm.Delete k).1.Get k = (Value.nil, false) ∧
      (∀ k1 : String, k1 ≠ k → mapLoad (cm.Delete k).1.m k1 = mapLoad cm.m k1) ∧
      (cm.Delete k).1.nc = cm.nc ∧ (cm.Delete k).1.nt = cm.nt) ∧
    (∀ (csm : cacheSyncMap) (k : Value),
      (csm.Delete k).2 = none ∧ (csm.Delete k).1.Get k = (Value.nil, false) ∧
      (∀ k1 : Value, k1 ≠ k → mapLoad (csm.Delete k).1.m k1 = mapLoad csm.m k1) ∧
      (csm.Delete k).1.nc = csm.nc ∧ (csm.Delete k).1.nt = csm.nt) := by
  constructor
  · intro cm k
    refine ⟨rfl, ?_, fun k1 hk => mapLoad_mapDelete_ne cm.m k k1 hk, rfl, rfl⟩
    simp [cacheMap.Delete, cacheMap.Get, mapLoad_mapDelete_self]
  · intro csm k
    refine ⟨rfl, ?_, fun k1 hk => mapLoad_mapDelete_ne csm.m k k1 hk, rfl, rfl⟩
    simp [cacheSyncMap.Delete, cacheSyncMap.Get, mapLoad_mapDelete_self]

/-- Witness for C6: deleting "a" from a store that holds "a" and "b" leaves the
entry of "b". -/
theorem delete_removes_one_key_witness :
    mapLoad (cacheMap.Delete (cacheMap.mk [("a", ⟨0, Value.int 1⟩), ("b", ⟨105, Value.int 2⟩)]
        60 5 105 none 0) "a").1.m "b" = some ⟨105, Value.int 2⟩ :=
  ((delete_removes_one_key.1 (cacheMap.mk [("a", ⟨0, Value.int 1⟩), ("b", ⟨105, Value.int 2⟩)]
      60 5 105 none 0) "a").2.2.1 "b" (by decide)).trans (by decide)

/-- C7 (the code departs from the claim): `cacheMap.Clean` empties the mapping
and returns the nil error but leaves `nc` and `nt` as they were, whereas
`cacheSyncMap.Clean` stores 0 in both.  After `Set("a", 1, DefaultExpiration)`
at clock reading 100 on `New(60)`, `Clean()` leaves `nc = 60`; the same calls on
`NewS(60)` (the reaper having taken the wake signal of the `Set`) leave
`nc = 0`. -/
theorem clean_keeps_delay :
    (∀ cm : cacheMap, cm.Clean.1.m = [] ∧ cm.Clean.1.nc = cm.nc ∧ cm.Clean.1.nt = cm.nt ∧
      cm.Clean.2 = none ∧ ∀ k, cm.Clean.1.Get k = (Value.nil, false)) ∧
    ((New 60).Set "a" (Value.int 1) DefaultExpiration 100).map
        (fun cm => (cm.nc, cm.Clean.1.m, cm.Clean.1.nc, cm.Clean.1.nt)) =
      some (60, [], 60, 160) ∧
    ((((NewS 60).Set (Value.str "a") (Value.int 1) DefaultExpiration 100).bind
        cacheSyncMap.recv).bind cacheSyncMap.Clean).map
          (fun r => (r.1.m, r.1.nc, r.1.nt, r.2)) =
      some ([], 0, 0, none) := by
  refine ⟨fun cm => ⟨rfl, rfl, rfl, rfl, fun k => rfl⟩, by decide, by decide⟩

/-! ## The expiration instant of a written entry -/

theorem wrap64_of_range (x : Int) (h1 : -9223372036854775808 ≤ x)
    (h2 : x < 9223372036854775808) : wrap64 x = x := by
  unfold wrap64
  rw [Int.emod_eq_of_lt (by omega) (by omega)]
  omega

theorem expiresAtFor_intro (et d now : Int) :
    expiresAtFor et d now
      (if d = NoExpiration then 0
       else wrap64 (now + if d = DefaultExpiration then et else d)) := by
  refine ⟨fun h => by simp [h], fun h => ?_, fun h1 h2 => by simp [h1, h2]⟩
  subst h
  simp [DefaultExpiration, NoExpiration]

theorem cm_set_returns (cm : cacheMap) (key : String) (val : Value) (d : Int)
    (replace : Bool) (nowTime : Int) (h : cm.nh = 0 ∨ d = NoExpiration) :
    (cm.set key val d replace nowTime).isSome = true := by
  rcases h with h | h
  · exact cm_set_isSome cm key val d replace nowTime h
  · simp [cacheMap.set, h]

theorem csm_set_returns (csm : cacheSyncMap) (key val : Value) (d : Int)
    (replace : Bool) (nowTime : Int) (h : csm.nh = 0 ∨ d = NoExpiration) :
    (csm.set key val d replace nowTime).isSome = true := by
  rcases h with h | h
  · exact csm_set_isSome csm key val d replace nowTime h
  · simp [cacheSyncMap.set, h]

/-- C8: `Set` and `Replace` return, in both stores, whenever the wake channel is
empty or the duration is `NoExpiration`, and the entry they write under `k` at
the clock reading `now` holds the written value and the expiration instant 0 for
`NoExpiration`, `now + et` for `DefaultExpiration` and `now + d` for any other
duration `d`, the sums taken in `int64` (they are the exact sums whenever these
fit in 64 bits).  This holds for `Set` and `Replace` of `cacheMap` and for `Set`
of `cacheSyncMap`; `Replace` of `cacheSyncMap` hands the entry with that
expiration instant to `LoadOrStore` for every key, and the entry is the one
stored under `k` afterwards when `k` was absent. -/
theorem written_expiresAt :
    (∀ (cm cm1 : cacheMap) (k : String) (v : Value) (d now : Int),
      cm.Set k v d now = some cm1 →
        ∃ t, mapLoad cm1.m k = some { t := t, v := v } ∧ expiresAtFor cm.et d now t) ∧
    (∀ (cm : cacheMap) (k : String) (v : Value) (d now : Int) (r : cacheMap × Value × Bool),
      cm.Replace k v d now = some r →
        ∃ t, mapLoad r.1.m k = some { t := t, v := v } ∧ expiresAtFor cm.et d now t) ∧
    (∀ (csm csm1 : cacheSyncMap) (k v : Value) (d now : Int),
      csm.Set k v d now = some csm1 →
        ∃ t, mapLoad csm1.m k = some { t := t, v := v } ∧ expiresAtFor csm.et d now t) ∧
    (∀ (csm : cacheSyncMap) (k v : Value) (d now : Int) (r : cacheSyncMap × Value × Bool),
      mapLoad csm.m k = none → csm.Replace k v d now = some r →
        ∃ t, mapLoad r.1.m k = some { t := t, v := v } ∧ expiresAtFor csm.et d now t) ∧
    (∀ x : Int, -9223372036854775808 ≤ x → x < 9223372036854775808 → wrap64 x = x) ∧
    (∀ (csm : cacheSyncMap) (k v : Value) (d now : Int) (r : cacheSyncMap × Value × Bool),
      csm.Replace k v d now = some r →
        ∃ t, expiresAtFor csm.et d now t ∧
          (r.1.m, r.2) = LoadOrStore csm.m k { t := t, v := v }) ∧
    (∀ (cm : cacheMap) (k : String) (v : Value) (d now : Int),
      cm.nh = 0 ∨ d = NoExpiration →
        (cm.Set k v d now).isSome = true ∧ (cm.Replace k v d now).isSome = true) ∧
    (∀ (csm : cacheSyncMap) (k v : Value) (d now : Int),
      csm.nh = 0 ∨ d = NoExpiration →
        (csm.Set k v d now).isSome = true ∧ (csm.Replace k v d now).isSome = true) := by
  refine ⟨?_, ?_, ?_, ?_, wrap64_of_range, ?_, ?_, ?_⟩
  · intro cm cm1 k v d now h
    obtain ⟨ol, hs⟩ := cm_Set_eq_some h
    have hm := (cm_set_eq_some hs).1
    simp only at hm
    exact ⟨_, by rw [hm]; exact mapLoad_mapStore_self _ _ _, expiresAtFor_intro _ _ _⟩
  · intro cm k v d now r h
    have hm := (cm_set_eq_some h).1
    exact ⟨_, by rw [hm]; exact mapLoad_mapStore_self _ _ _, expiresAtFor_intro _ _ _⟩
  · intro csm csm1 k v d now h
    obtain ⟨ol, hs⟩ := csm_Set_eq_some h
    have hm := congrArg Prod.fst (csm_set_eq_some hs).1
    simp only [cacheSyncMap.put, Bool.false_eq_true, if_false] at hm
    exact ⟨_, by rw [hm]; exact mapLoad_mapStore_self _ _ _, expiresAtFor_intro _ _ _⟩
  · intro csm k v d now r hk h
    have hm := congrArg Prod.fst (csm_set_eq_some h).1
    simp only [cacheSyncMap.put, if_true, LoadOrStore, hk] at hm
    exact ⟨_, by rw [hm]; exact mapLoad_mapStore_self _ _ _, expiresAtFor_intro _ _ _⟩
  · intro csm k v d now r h
    have hm := (csm_set_eq_some h).1
    simp only [cacheSyncMap.put, if_true] at hm
    exact ⟨_, expiresAtFor_intro _ _ _, hm⟩
  · intro cm k v d now h
    have hs := cm_set_returns cm k v d true now h
    exact ⟨by simpa [cacheMap.Set] using hs, hs⟩
  · intro csm k v d now h
    exact ⟨by simpa [cacheSyncMap.Set] using csm_set_returns csm k v d false now h,
      csm_set_returns csm k v d true now h⟩

/-- Witness for C8: on both stores a write with the default duration 60 at
clock reading 100 returns and stores the expiration instant 160; `Replace` of an
absent key on the second store does the same with the duration 5. -/
theorem written_expiresAt_witness :
    (New 60).Set "a" (Value.int 1) DefaultExpiration 100 =
        some (cacheMap.mk [("a", ⟨160, Value.int 1⟩)] 60 60 160 none 1) ∧
      wrap64 (100 + 60) = 160 ∧
      (∃ t, mapLoad (cacheMap.mk [("a", ⟨160, Value.int 1⟩)] 60 60 160 none 1).m "a" =
          some { t := t, v := Value.int 1 } ∧
        expiresAtFor (New 60).et DefaultExpiration 100 t) ∧
      ((New 60).Set "a" (Value.int 1) DefaultExpiration 100).isSome = true ∧
      ((NewS 60).Set (Value.str "a") (Value.int 1) DefaultExpiration 100).isSome = true ∧
      ((NewS 60).Replace (Value.str "a") (Value.int 1) 5 100).isSome = true ∧
      (∃ t, mapLoad (cacheSyncMap.mk [(Value.str "a", ⟨160, Value.int 1⟩)] 60 none 60 160
            1).m (Value.str "a") = some { t := t, v := Value.int 1 } ∧
        expiresAtFor (NewS 60).et DefaultExpiration 100 t) ∧
      (∃ t, mapLoad (cacheSyncMap.mk [(Value.str "a", ⟨105, Value.int 1⟩)] 60 none 5 105
            1).m (Value.str "a") = some { t := t, v := Value.int 1 } ∧
        expiresAtFor (NewS 60).et 5 100 t) :=
  ⟨by decide, written_expiresAt.2.2.2.2.1 (100 + 60) (by decide) (by decide),
    written_expiresAt.1 (New 60) (cacheMap.mk [("a", ⟨160, Value.int 1⟩)] 60 60 160 none 1)
      "a" (Value.int 1) DefaultExpiration 100 (by decide),
    (written_expiresAt.2.2.2.2.2.2.1 (New 60) "a" (Value.int 1) DefaultExpiration 100
      (Or.inl rfl)).1,
    (written_expiresAt.2.2.2.2.2.2.2 (NewS 60) (Value.str "a") (Value.int 1) DefaultExpiration
      100 (Or.inl rfl)).1,
    (written_expiresAt.2.2.2.2.2.2.2 (NewS 60) (Value.str "a") (Value.int 1) 5 100
      (Or.inl rfl)).2,
    written_expiresAt.2.2.1 (NewS 60)
      (cacheSyncMap.mk [(Value.str "a", ⟨160, Value.int 1⟩)] 60 none 60 160 1) (Value.str "a")
      (Value.int 1) DefaultExpiration 100 (by decide),
    written_expiresAt.2.2.2.1 (NewS 60) (Value.str "a") (Value.int 1) 5 100
      (cacheSyncMap.mk [(Value.str "a", ⟨105, Value.int 1⟩)] 60 none 5 105 1,
        Value.boxed 105 (Value.int 1), false) (by decide) (by decide)⟩

/-- C9 (the code departs from the claim): on a store created with
`NoExpiration` as its default duration, `Set(k, v, DefaultExpiration)` at clock
reading 100 stores the expiration instant 99 (already expired), sets `nc = -1`,
`nt = 99` and sends a wake signal, while `Set(k, v, NoExpiration)`, the write
with the store's own default duration, stores the instant 0 and touches neither
the schedule nor the channel.  Both stores behave so. -/
theorem default_ttl_noexpiration :
    (New NoExpiration).Set "a" (Value.int 1) DefaultExpiration 100 =
      some (cacheMap.mk [("a", ⟨99, Value.int 1⟩)] (-1) (-1) 99 none 1) ∧
    (New NoExpiration).Set "a" (Value.int 1) (New NoExpiration).et 100 =
      some (cacheMap.mk [("a", ⟨0, Value.int 1⟩)] (-1) 0 0 none 0) ∧
    (NewS NoExpiration).Set (Value.str "a") (Value.int 1) DefaultExpiration 100 =
      some (cacheSyncMap.mk [(Value.str "a", ⟨99, Value.int 1⟩)] (-1) none (-1) 99 1) ∧
    (NewS NoExpiration).Set (Value.str "a") (Value.int 1) (NewS NoExpiration).et 100 =
      some (cacheSyncMap.mk [(Value.str "a", ⟨0, Value.int 1⟩)] (-1) none 0 0 0) ∧
    item.check ⟨99, Value.int 1⟩ 100 = true := by
  decide

/-! ## Entries without expiration survive -/

theorem mem_mapDelete {κ : Type} [DecidableEq κ] (m : List (κ × item)) (k : κ)
    (e : κ × item) (h : e ∈ mapDelete m k) : e ∈ m ∧ e.1 ≠ k := by
  simpa [mapDelete, List.mem_filter] using h

theorem pinned_mapStore_self {κ : Type} [DecidableEq κ] (k : κ) (v : Value)
    (m : List (κ × item)) : pinned k v (mapStore m k { t := 0, v := v }) := by
  refine ⟨mapLoad_mapStore_self _ _ _, ?_⟩
  intro e he hk
  simp only [mapStore, List.mem_cons] at he
  rcases he with rfl | he
  · rfl
  · exact absurd hk (mem_mapDelete m k e he).2

theorem pinned_mapDelete_ne {κ : Type} [DecidableEq κ] (k k1 : κ) (v : Value)
    (m : List (κ × item)) (hk : k1 ≠ k) (h : pinned k v m) : pinned k v (mapDelete m k1) := by
  refine ⟨?_, fun e he => h.2 e (mem_mapDelete m k1 e he).1⟩
  rw [mapLoad_mapDelete_ne m k1 k (fun hh => hk hh.symm)]
  exact h.1

theorem pinned_mapStore_ne {κ : Type} [DecidableEq κ] (k k1 : κ) (v : Value)
    (m : List (κ × item)) (it : item) (hk : k1 ≠ k) (h : pinned k v m) :
    pinned k v (mapStore m k1 it) := by
  refine ⟨?_, ?_⟩
  · rw [mapLoad_mapStore_ne m k1 k it (fun hh => hk hh.symm)]
    exact h.1
  · intro e he hek
    simp only [mapStore, List.mem_cons] at he
    rcases he with rfl | he
    · exact absurd hek hk
    · exact h.2 e (mem_mapDelete m k1 e he).1 hek

theorem pinned_put_ne (k k1 : Value) (v : Value) (m : List (Value × item)) (it : item)
    (replace : Bool) (hk : k1 ≠ k) (h : pinned k v m) :
    pinned k v (cacheSyncMap.put m k1 it replace).1 := by
  unfold cacheSyncMap.put LoadOrStore
  cases replace
  · simpa using pinned_mapStore_ne k k1 v m it hk h
  · cases hl : mapLoad m k1 with
    | none => simpa [hl] using pinned_mapStore_ne k k1 v m it hk h
    | some cur => simpa [hl] using h

theorem check_of_t_zero (it : item) (now : Int) (h : it.t = 0) : it.check now = false := by
  simp [item.check, h]

/-- The loop of `_clear` keeps an entry that has no expiration, whatever the
clock readings. -/
theorem pinned_sweep_fold {κ : Type} [DecidableEq κ] (clk : Nat → Int) (k : κ) (v : Value)
    (es : List (κ × item)) (hes : ∀ e ∈ es, e.1 = k → e.2.t = 0) :
    ∀ acc : List (κ × item) × Int × Nat, pinned k v acc.1 →
      pinned k v (es.foldl (sweepStep clk) acc).1 := by
  induction es with
  | nil => intro acc h; exact h
  | cons e rest ih =>
    intro acc h
    rw [List.foldl_cons]
    apply ih (fun e1 he1 => hes e1 (List.mem_cons_of_mem _ he1))
    unfold sweepStep
    by_cases hc : e.2.check (clk acc.2.2) = true
    · rw [if_pos hc]
      have hne : e.1 ≠ k := by
        intro hek
        have h0 := check_of_t_zero e.2 (clk acc.2.2) (hes e (List.mem_cons_self _ _) hek)
        rw [h0] at hc
        exact Bool.false_ne_true hc
      exact pinned_mapDelete_ne k e.1 v acc.1 hne h
    · rw [if_neg hc]
      split_ifs <;> exact h

theorem pinned_sweepLoop {κ : Type} [DecidableEq κ] (clk : Nat → Int) (k : κ) (v : Value)
    (m : List (κ × item)) (h : pinned k v m) : pinned k v (sweepLoop clk m).1 :=
  pinned_sweep_fold clk k v m h.2 (m, 0, 0) h

theorem cm_apply_pinned (k : String) (v : Value) (op : cmOp) (cm cm1 : cacheMap)
    (ha : op.avoids k = true) (hs : op.apply cm = some cm1) (h : pinned k v cm.m) :
    pinned k v cm1.m := by
  cases op with
  | Set key val d now =>
    have hk : key ≠ k := by simpa [cmOp.avoids] using ha
    obtain ⟨ol, hs1⟩ := cm_Set_eq_some hs
    rw [(cm_set_eq_some hs1).1]
    exact pinned_mapStore_ne k key v cm.m _ hk h
  | Replace key val d now =>
    have hk : key ≠ k := by simpa [cmOp.avoids] using ha
    obtain ⟨ol, hs1⟩ := cm_Set_eq_some hs
    rw [(cm_set_eq_some hs1).1]
    exact pinned_mapStore_ne k key v cm.m _ hk h
  | Delete key =>
    have hk : key ≠ k := by simpa [cmOp.avoids] using ha
    simp only [cmOp.apply, Option.some.injEq] at hs
    subst hs
    exact pinned_mapDelete_ne k key v cm.m hk h
  | Clean => simp [cmOp.avoids] at ha
  | ClearCallback f =>
    simp only [cmOp.apply, Option.some.injEq] at hs
    subst hs
    exact h
  | sweep clk =>
    simp only [cmOp.apply, Option.some.injEq] at hs
    subst hs
    exact pinned_sweepLoop clk k v cm.m h
  | recv =>
    simp only [cmOp.apply, cacheMap.recv] at hs
    cases hr : chanRecv cm.nh with
    | none => simp [hr] at hs
    | some n =>
      simp only [hr, Option.map_some', Option.some.injEq] at hs
      subst hs
      exact h

theorem cm_run_pinned (k : String) (v : Value) (ops : List cmOp)
    (ha : ∀ op ∈ ops, op.avoids k = true) :
    ∀ cm cm1 : cacheMap, cmRun ops cm = some cm1 → pinned k v cm.m → pinned k v cm1.m := by
  induction ops with
  | nil =>
    intro cm cm1 hr h
    simp only [cmRun, Option.some.injEq] at hr
    subst hr
    exact h
  | cons op rest ih =>
    intro cm cm1 hr h
    simp only [cmRun] at hr
    cases hs : op.apply cm with
    | none => simp [hs] at hr
    | some c =>
      simp only [hs, Option.some_bind] at hr
      exact ih (fun o ho => ha o (List.mem_cons_of_mem _ ho)) c cm1 hr
        (cm_apply_pinned k v op cm c (ha op (List.mem_cons_self _ _)) hs h)

theorem csm_set_pinned (k key val v : Value) (d now : Int) (replace : Bool)
    (csm : cacheSyncMap) (r : cacheSyncMap × Value × Bool) (hk : key ≠ k)
    (hs : csm.set key val d replace now = some r) (h : pinned k v csm.m) :
    pinned k v r.1.m := by
  have hm := congrArg Prod.fst (csm_set_eq_some hs).1
  simp only at hm
  rw [hm]
  exact pinned_put_ne k key v csm.m _ replace hk h

theorem csm_map_fst_eq_some {α β : Type} {o : Option (α × β)} {a : α}
    (h : o.map (fun r => r.1) = some a) : ∃ b, o = some (a, b) := by
  cases o with
  | none => simp at h
  | some r =>
    obtain ⟨a1, b1⟩ := r
    simp only [Option.map_some', Option.some.injEq] at h
    subst h
    exact ⟨b1, rfl⟩

theorem csm_apply_pinned (k : Value) (v : Value) (op : csmOp) (csm csm1 : cacheSyncMap)
    (ha : op.avoids k = true) (hs : op.apply csm = some csm1) (h : pinned k v csm.m) :
    pinned k v csm1.m := by
  cases op with
  | Set key val d now =>
    have hk : key ≠ k := by simpa [csmOp.avoids] using ha
    obtain ⟨ol, hs1⟩ := csm_map_fst_eq_some hs
    exact csm_set_pinned k key val v d now false csm _ hk hs1 h
  | Replace key val d now =>
    have hk : key ≠ k := by simpa [csmOp.avoids] using ha
    obtain ⟨ol, hs1⟩ := csm_map_fst_eq_some hs
    exact csm_set_pinned k key val v d now true csm _ hk hs1 h
  | Add key val d now =>
    have hk : key ≠ k := by simpa [csmOp.avoids] using ha
    obtain ⟨b, hs1⟩ := csm_map_fst_eq_some hs
    unfold cacheSyncMap.Add at hs1
    cases hl : mapLoad csm.m key with
    | some cur =>
      simp only [hl, Option.some.injEq, Prod.mk.injEq] at hs1
      rw [← hs1.1]
      exact h
    | none =>
      simp only [hl] at hs1
      cases hset : csm.set key val d false now with
      | none => simp [hset] at hs1
      | some r =>
        simp only [hset, Option.map_some', Option.some.injEq, Prod.mk.injEq] at hs1
        rw [← hs1.1]
        exact csm_set_pinned k key val v d now false csm r hk hset h
  | Delete key =>
    have hk : key ≠ k := by simpa [csmOp.avoids] using ha
    simp only [csmOp.apply, Option.some.injEq] at hs
    subst hs
    exact pinned_mapDelete_ne k key v csm.m hk h
  | Clean => simp [csmOp.avoids] at ha
  | ClearCallback f =>
    simp only [csmOp.apply, Option.some.injEq] at hs
    subst hs
    exact h
  | sweep clk =>
    simp only [csmOp.apply, Option.some.injEq] at hs
    subst hs
    exact pinned_sweepLoop clk k v csm.m h
  | recv =>
    simp only [csmOp.apply, cacheSyncMap.recv] at hs
    cases hr : chanRecv csm.nh with
    | none => simp [hr] at hs
    | some n =>
      simp only [hr, Option.map_some', Option.some.injEq] at hs
      subst hs
      exact h

theorem csm_run_pinned (k : Value) (v : Value) (ops : List csmOp)
    (ha : ∀ op ∈ ops, op.avoids k = true) :
    ∀ csm csm1 : cacheSyncMap, csmRun ops csm = some csm1 → pinned k v csm.m →
      pinned k v csm1.m := by
  induction ops with
  | nil =>
    intro csm csm1 hr h
    simp only [csmRun, Option.some.injEq] at hr
    subst hr
    exact h
  | cons op rest ih =>
    intro csm csm1 hr h
    simp only [csmRun] at hr
    cases hs : op.apply csm with
    | none => simp [hs] at hr
    | some c =>
      simp only [hs, Option.some_bind] at hr
      exact ih (fun o ho => ha o (List.mem_cons_of_mem _ ho)) c csm1 hr
        (csm_apply_pinned k v op csm c (ha op (List.mem_cons_self _ _)) hs h)

/-- C10: in both stores `Set(k, v, NoExpiration)` always returns, and after it
every sequence of events that contains no `Clean` and no `Set`, `Replace`, `Add`
or `Delete` of `k` (sweeps with any clock readings, writes and deletions of
other keys, the reaper taking wake signals, registering a callback) leaves
`Get(k) = (v, true)`. -/
theorem noexpiration_persists :
    (∀ (cm : cacheMap) (k : String) (v : Value) (now : Int),
      (cm.Set k v NoExpiration now).isSome = true) ∧
    (∀ (cm cm1 cm2 : cacheMap) (k : String) (v : Value) (now : Int) (ops : List cmOp),
      cm.Set k v NoExpiration now = some cm1 → (∀ op ∈ ops, op.avoids k = true) →
        cmRun ops cm1 = some cm2 → cm2.Get k = (v, true)) ∧
    (∀ (csm : cacheSyncMap) (k v : Value) (now : Int),
      (csm.Set k v NoExpiration now).isSome = true) ∧
    (∀ (csm csm1 csm2 : cacheSyncMap) (k v : Value) (now : Int) (ops : List csmOp),
      csm.Set k v NoExpiration now = some csm1 → (∀ op ∈ ops, op.avoids k = true) →
        csmRun ops csm1 = some csm2 → csm2.Get k = (v, true)) := by
  refine ⟨?_, ?_, ?_, ?_⟩
  · intro cm k v now
    simp [cacheMap.Set, cacheMap.set]
  · intro cm cm1 cm2 k v now ops hs ha hr
    have h1 : cm1.m = mapStore cm.m k { t := 0, v := v } := by
      obtain ⟨ol, hs1⟩ := cm_Set_eq_some hs
      simpa using (cm_set_eq_some hs1).1
    have hp := cm_run_pinned k v ops ha cm1 cm2 hr (by rw [h1]; exact pinned_mapStore_self k v cm.m)
    exact cm_Get_of_load cm2 k _ hp.1
  · intro csm k v now
    simp [cacheSyncMap.Set, cacheSyncMap.set]
  · intro csm csm1 csm2 k v now ops hs ha hr
    have h1 : csm1.m = mapStore csm.m k { t := 0, v := v } := by
      obtain ⟨ol, hs1⟩ := csm_Set_eq_some hs
      simpa [cacheSyncMap.put] using congrArg Prod.fst (csm_set_eq_some hs1).1
    have hp := csm_run_pinned k v ops ha csm1 csm2 hr
      (by rw [h1]; exact pinned_mapStore_self k v csm.m)
    exact csm_Get_of_load csm2 k _ hp.1

/-- Witness for C10: "b" is set without expiration at clock reading 100; then
"a" is set with the default duration 60, the reaper takes the wake signal, a
sweep at 161 removes "a", "c" is deleted and a sweep runs at 3700; "b" is still
there. -/
theorem noexpiration_persists_witness :
    (New 60).Set "b" (Value.int 2) NoExpiration 100 =
        some (cacheMap.mk [("b", ⟨0, Value.int 2⟩)] 60 0 0 none 0) ∧
      cmRun [cmOp.Set "a" (Value.int 1) DefaultExpiration 100, cmOp.recv,
          cmOp.sweep (fun _ => 161), cmOp.Delete "c", cmOp.sweep (fun _ => 3700)]
          (cacheMap.mk [("b", ⟨0, Value.int 2⟩)] 60 0 0 none 0) =
        some (cacheMap.mk [("b", ⟨0, Value.int 2⟩)] 60 0 160 none 0) ∧
      (cacheMap.mk [("b", ⟨0, Value.int 2⟩)] 60 0 160 none 0).Get "b" = (Value.int 2, true) :=
  ⟨by decide, by decide,
    noexpiration_persists.2.1 (New 60) (cacheMap.mk [("b", ⟨0, Value.int 2⟩)] 60 0 0 none 0)
      (cacheMap.mk [("b", ⟨0, Value.int 2⟩)] 60 0 160 none 0) "b" (Value.int 2) 100
      [cmOp.Set "a" (Value.int 1) DefaultExpiration 100, cmOp.recv,
        cmOp.sweep (fun _ => 161), cmOp.Delete "c", cmOp.sweep (fun _ => 3700)]
      (by decide) (by decide) (by decide)⟩

/-! ## What a sweep removes -/

/-- The mapping after the loop of `_clear`, all clock readings being `now`: the
entries whose key is not the key of a visited entry that `check` found expired. -/
theorem sweep_fold_map {κ : Type} [DecidableEq κ] (now : Int) (es : List (κ × item)) :
    ∀ acc : List (κ × item) × Int × Nat,
      (es.foldl (sweepStep (fun _ => now)) acc).1 =
        acc.1.filter (fun e => !(es.any (fun x => x.2.check now && decide (x.1 = e.1)))) := by
  induction es with
  | nil => intro acc; simp
  | cons e0 rest ih =>
    intro acc
    rw [List.foldl_cons, ih]
    unfold sweepStep
    by_cases hc : e0.2.check now = true
    · simp only [hc, if_true, mapDelete, List.filter_filter]
      apply List.filter_congr
      intro e _
      by_cases hk : e0.1 = e.1
      · simp [hk, hc]
      · have hk1 : ¬ e.1 = e0.1 := fun hh => hk hh.symm
        simp [hk, hk1]
    · have hcf : e0.2.check now = false := by simpa using hc
      have hsame : ∀ a b : List (κ × item) × Int × Nat, a.1 = acc.1 → b.1 = acc.1 →
          (if acc.2.1 = 0 ∨ e0.2.t < acc.2.1 then a else b).1 = acc.1 := by
        intro a b ha hb
        split_ifs
        · exact ha
        · exact hb
      simp only [hcf, Bool.false_eq_true, if_false]
      rw [hsame (acc.1, e0.2.t, acc.2.2 + 1) (acc.1, acc.2.1, acc.2.2 + 1) rfl rfl]
      apply List.filter_congr
      intro e _
      simp [hcf]

theorem any_expired_same_key {κ : Type} [DecidableEq κ] (now : Int) (m : List (κ × item))
    (hm : (m.map Prod.fst).Nodup) (e : κ × item) (he : e ∈ m) :
    m.any (fun x => x.2.check now && decide (x.1 = e.1)) = e.2.check now := by
  cases hc : e.2.check now with
  | true =>
    rw [List.any_eq_true]
    exact ⟨e, he, by simp [hc]⟩
  | false =>
    rw [List.any_eq_false]
    intro x hx hxe
    simp only [Bool.and_eq_true, decide_eq_true_eq] at hxe
    have hxeq : x = e := List.inj_on_of_nodup_map hm hx he hxe.2
    rw [hxeq, hc] at hxe
    exact Bool.false_ne_true hxe.1

/-- On a mapping with unique keys the loop of `_clear` at the clock reading
`now` leaves exactly the entries that `check` does not find expired. -/
theorem sweepLoop_map {κ : Type} [DecidableEq κ] (now : Int) (m : List (κ × item))
    (hm : (m.map Prod.fst).Nodup) :
    (sweepLoop (fun _ => now) m).1 = m.filter (fun e => !e.2.check now) := by
  unfold sweepLoop
  rw [sweep_fold_map]
  apply List.filter_congr
  intro e he
  rw [any_expired_same_key now m hm e he]

theorem mapLoad_none_of_not_mem {κ : Type} [DecidableEq κ] (m : List (κ × item)) (k : κ)
    (h : k ∉ m.map Prod.fst) : mapLoad m k = none := by
  induction m with
  | nil => rfl
  | cons e rest ih =>
    obtain ⟨k0, it0⟩ := e
    simp only [List.map_cons, List.mem_cons, not_or] at h
    have h0 : ¬ k0 = k := fun hh => h.1 hh.symm
    simpa [mapLoad, h0] using ih h.2

theorem mapLoad_filter {κ : Type} [DecidableEq κ] (p : item → Bool) (m : List (κ × item))
    (hm : (m.map Prod.fst).Nodup) (k : κ) :
    mapLoad (m.filter (fun e => p e.2)) k = (mapLoad m k).filter p := by
  induction m with
  | nil => rfl
  | cons e rest ih =>
    obtain ⟨k0, it0⟩ := e
    simp only [List.map_cons, List.nodup_cons] at hm
    by_cases hp : p it0 = true
    · by_cases hk : k0 = k
      · simp [List.filter_cons, hp, mapLoad, hk, Option.filter_some]
      · simpa [List.filter_cons, hp, mapLoad, hk] using ih hm.2
    · by_cases hk : k0 = k
      · subst hk
        have hn := mapLoad_none_of_not_mem rest k0 hm.1
        have hr := ih hm.2
        rw [hn] at hr
        simpa [List.filter_cons, hp, mapLoad, Option.filter_some] using hr
      · simpa [List.filter_cons, hp, mapLoad, hk] using ih hm.2

/-! ## Keys stay unique -/

theorem nodup_mapDelete {κ : Type} [DecidableEq κ] (m : List (κ × item)) (k : κ)
    (h : (m.map Prod.fst).Nodup) : ((mapDelete m k).map Prod.fst).Nodup :=
  List.Nodup.sublist (List.Sublist.map Prod.fst (List.filter_sublist m)) h

theorem nodup_mapStore {κ : Type} [DecidableEq κ] (m : List (κ × item)) (k : κ) (it : item)
    (h : (m.map Prod.fst).Nodup) : ((mapStore m k it).map Prod.fst).Nodup := by
  simp only [mapStore, List.map_cons, List.nodup_cons]
  refine ⟨?_, nodup_mapDelete m k h⟩
  intro hmem
  obtain ⟨e, he, hek⟩ := List.mem_map.mp hmem
  exact (mem_mapDelete m k e he).2 hek

theorem nodup_put (m : List (Value × item)) (k : Value) (it : item) (replace : Bool)
    (h : (m.map Prod.fst).Nodup) : ((cacheSyncMap.put m k it replace).1.map Prod.fst).Nodup := by
  unfold cacheSyncMap.put LoadOrStore
  cases replace
  · simpa using nodup_mapStore m k it h
  · cases hl : mapLoad m k with
    | none => simpa [hl] using nodup_mapStore m k it h
    | some cur => simpa [hl] using h

theorem sweep_fold_sublist {κ : Type} [DecidableEq κ] (clk : Nat → Int)
    (es : List (κ × item)) :
    ∀ acc : List (κ × item) × Int × Nat,
      List.Sublist (es.foldl (sweepStep clk) acc).1 acc.1 := by
  induction es with
  | nil => intro acc; exact List.Sublist.refl _
  | cons e0 rest ih =>
    intro acc
    rw [List.foldl_cons]
    refine List.Sublist.trans (ih _) ?_
    unfold sweepStep
    split_ifs
    · exact List.filter_sublist acc.1
    · exact List.Sublist.refl _
    · exact List.Sublist.refl _

theorem nodup_sweepLoop {κ : Type} [DecidableEq κ] (clk : Nat → Int) (m : List (κ × item))
    (h : (m.map Prod.fst).Nodup) : ((sweepLoop clk m).1.map Prod.fst).Nodup :=
  List.Nodup.sublist (List.Sublist.map Prod.fst (sweep_fold_sublist clk m (m, 0, 0))) h

theorem cm_apply_nodup (op : cmOp) (cm cm1 : cacheMap) (hs : op.apply cm = some cm1)
    (h : (cm.m.map Prod.fst).Nodup) : (cm1.m.map Prod.fst).Nodup := by
  cases op with
  | Set key val d now =>
    obtain ⟨ol, hs1⟩ := cm_Set_eq_some hs
    rw [(cm_set_eq_some hs1).1]
    exact nodup_mapStore cm.m key _ h
  | Replace key val d now =>
    obtain ⟨ol, hs1⟩ := cm_Set_eq_some hs
    rw [(cm_set_eq_some hs1).1]
    exact nodup_mapStore cm.m key _ h
  | Delete key =>
    simp only [cmOp.apply, Option.some.injEq] at hs
    subst hs
    exact nodup_mapDelete cm.m key h
  | Clean =>
    simp only [cmOp.apply, Option.some.injEq] at hs
    subst hs
    simp [cacheMap.Clean]
  | ClearCallback f =>
    simp only [cmOp.apply, Option.some.injEq] at hs
    subst hs
    exact h
  | sweep clk =>
    simp only [cmOp.apply, Option.some.injEq] at hs
    subst hs
    exact nodup_sweepLoop clk cm.m h
  | recv =>
    simp only [cmOp.apply, cacheMap.recv] at hs
    cases hr : chanRecv cm.nh with
    | none => simp [hr] at hs
    | some n =>
      simp only [hr, Option.map_some', Option.some.injEq] at hs
      subst hs
      exact h

theorem cm_run_nodup (ops : List cmOp) :
    ∀ cm cm1 : cacheMap, cmRun ops cm = some cm1 → (cm.m.map Prod.fst).Nodup →
      (cm1.m.map Prod.fst).Nodup := by
  induction ops with
  | nil =>
    intro cm cm1 hr h
    simp only [cmRun, Option.some.injEq] at hr
    subst hr
    exact h
  | cons op rest ih =>
    intro cm cm1 hr h
    simp only [cmRun] at hr
    cases hs : op.apply cm with
    | none => simp [hs] at hr
    | some c =>
      simp only [hs, Option.some_bind] at hr
      exact ih c cm1 hr (cm_apply_nodup op cm c hs h)

theorem csm_set_nodup (key val : Value) (d now : Int) (replace : Bool)
    (csm : cacheSyncMap) (r : cacheSyncMap × Value × Bool)
    (hs : csm.set key val d replace now = some r) (h : (csm.m.map Prod.fst).Nodup) :
    (r.1.m.map Prod.fst).Nodup := by
  have hm := congrArg Prod.fst (csm_set_eq_some hs).1
  simp only at hm
  rw [hm]
  exact nodup_put csm.m key _ replace h

theorem csm_apply_nodup (op : csmOp) (csm csm1 : cacheSyncMap)
    (hs : op.apply csm = some csm1) (h : (csm.m.map Prod.fst).Nodup) :
    (csm1.m.map Prod.fst).Nodup := by
  cases op with
  | Set key val d now =>
    obtain ⟨ol, hs1⟩ := csm_map_fst_eq_some hs
    exact csm_set_nodup key val d now false csm _ hs1 h
  | Replace key val d now =>
    obtain ⟨ol, hs1⟩ := csm_map_fst_eq_some hs
    exact csm_set_nodup key val d now true csm _ hs1 h
  | Add key val d now =>
    obtain ⟨b, hs1⟩ := csm_map_fst_eq_some hs
    unfold cacheSyncMap.Add at hs1
    cases hl : mapLoad csm.m key with
    | some cur =>
      simp only [hl, Option.some.injEq, Prod.mk.injEq] at hs1
      rw [← hs1.1]
      exact h
    | none =>
      simp only [hl] at hs1
      cases hset : csm.set key val d false now with
      | none => simp [hset] at hs1
      | some r =>
        simp only [hset, Option.map_some', Option.some.injEq, Prod.mk.injEq] at hs1
        rw [← hs1.1]
        exact csm_set_nodup key val d now false csm r hset h
  | Delete key =>
    simp only [csmOp.apply, Option.some.injEq] at hs
    subst hs
    exact nodup_mapDelete csm.m key h
  | Clean =>
    obtain ⟨b, hs1⟩ := csm_map_fst_eq_some hs
    unfold cacheSyncMap.Clean at hs1
    cases hc : chanSend csm.nh with
    | none => simp [hc] at hs1
    | some n =>
      simp only [hc, Option.some.injEq, Prod.mk.injEq] at hs1
      rw [← hs1.1]
      simp
  | ClearCallback f =>
    simp only [csmOp.apply, Option.some.injEq] at hs
    subst hs
    exact h
  | sweep clk =>
    simp only [csmOp.apply, Option.some.injEq] at hs
    subst hs
    exact nodup_sweepLoop clk csm.m h
  | recv =>
    simp only [csmOp.apply, cacheSyncMap.recv] at hs
    cases hr : chanRecv csm.nh with
    | none => simp [hr] at hs
    | some n =>
      simp only [hr, Option.map_some', Option.some.injEq] at hs
      subst hs
      exact h

theorem csm_run_nodup (ops : List csmOp) :
    ∀ csm csm1 : cacheSyncMap, csmRun ops csm = some csm1 → (csm.m.map Prod.fst).Nodup →
      (csm1.m.map Prod.fst).Nodup := by
  induction ops with
  | nil =>
    intro csm csm1 hr h
    simp only [csmRun, Option.some.injEq] at hr
    subst hr
    exact h
  | cons op rest ih =>
    intro csm csm1 hr h
    simp only [csmRun] at hr
    cases hs : op.apply csm with
    | none => simp [hs] at hr
    | some c =>
      simp only [hs, Option.some_bind] at hr
      exact ih c csm1 hr (csm_apply_nodup op csm c hs h)

/-! ## The sweep -/

/-- C11: in both stores, on a mapping with unique keys (every mapping reached
from a fresh store has unique keys), a sweep whose clock reads `now` leaves
exactly the entries that `check` does not find expired at `now`: under every key
the mapping afterwards holds the entry it held before, value and expiration
instant unchanged, if that entry was not expired, and nothing if it was. -/
theorem sweep_removes_expired :
    (∀ (cm : cacheMap) (now : Int), (cm.m.map Prod.fst).Nodup →
      (cm._clear now).m = cm.m.filter (fun e => !e.2.check now) ∧
      ∀ k, mapLoad (cm._clear now).m k = (mapLoad cm.m k).filter (fun it => !it.check now)) ∧
    (∀ (csm : cacheSyncMap) (now : Int), (csm.m.map Prod.fst).Nodup →
      (csm._clear now).m = csm.m.filter (fun e => !e.2.check now) ∧
      ∀ k, mapLoad (csm._clear now).m k =
        (mapLoad csm.m k).filter (fun it => !it.check now)) ∧
    (∀ (expire : Int) (ops : List cmOp) (cm : cacheMap),
      cmRun ops (New expire) = some cm → (cm.m.map Prod.fst).Nodup) ∧
    (∀ (expire : Int) (ops : List csmOp) (csm : cacheSyncMap),
      csmRun ops (NewS expire) = some csm → (csm.m.map Prod.fst).Nodup) := by
  refine ⟨?_, ?_, ?_, ?_⟩
  · intro cm now h
    have hm : (cm._clear now).m = cm.m.filter (fun e => !e.2.check now) :=
      sweepLoop_map now cm.m h
    refine ⟨hm, fun k => ?_⟩
    rw [hm]
    exact mapLoad_filter (fun it => !it.check now) cm.m h k
  · intro csm now h
    have hm : (csm._clear now).m = csm.m.filter (fun e => !e.2.check now) :=
      sweepLoop_map now csm.m h
    refine ⟨hm, fun k => ?_⟩
    rw [hm]
    exact mapLoad_filter (fun it => !it.check now) csm.m h k
  · intro expire ops cm hr
    exact cm_run_nodup ops (New expire) cm hr (by simp [New])
  · intro expire ops csm hr
    exact csm_run_nodup ops (NewS expire) csm hr (by simp [NewS])

/-- Witness for C11: the default duration is one minute; "a" is set with it at
the instant T = 1700000000000000000 and `Get` finds it; one sweep 61 seconds
later removes it. -/
theorem sweep_removes_expired_witness :
    (New 60000000000).Set "a" (Value.int 1) DefaultExpiration 1700000000000000000 =
        some (cacheMap.mk [("a", ⟨1700000060000000000, Value.int 1⟩)] 60000000000
          60000000000 1700000060000000000 none 1) ∧
      (cacheMap.mk [("a", ⟨1700000060000000000, Value.int 1⟩)] 60000000000
          60000000000 1700000060000000000 none 1).Get "a" = (Value.int 1, true) ∧
      ((cacheMap.mk [("a", ⟨1700000060000000000, Value.int 1⟩)] 60000000000
          60000000000 1700000060000000000 none 1)._clear 1700000061000000000).m = [] ∧
      ((cacheMap.mk [("a", ⟨1700000060000000000, Value.int 1⟩)] 60000000000
          60000000000 1700000060000000000 none 1)._clear 1700000061000000000).Get "a" =
        (Value.nil, false) :=
  ⟨by decide, by decide,
    ((sweep_removes_expired.1 (cacheMap.mk [("a", ⟨1700000060000000000, Value.int 1⟩)]
        60000000000 60000000000 1700000060000000000 none 1) 1700000061000000000
        (by decide)).1).trans (by decide),
    by decide⟩

/-! ## The expiration test -/

theorem check_iff (it : item) (now : Int) :
    it.check now = true ↔ it.t > 0 ∧ now > it.t := by
  simp [item.check]

/-- C12: `item.check` at the clock reading `now` returns true only if an
expiration was set (`t ≠ 0`) and `now > t`; it returns true whenever `t > 0` and
`now > t`; it returns false for every item with `t = 0` at every `now`.  It
reads the item and returns a boolean, nothing else. -/
theorem check_only_when_set :
    (∀ (it : item) (now : Int), it.check now = true → it.t ≠ 0 ∧ now > it.t) ∧
    (∀ (it : item) (now : Int), it.t > 0 → now > it.t → it.check now = true) ∧
    (∀ (it : item) (now : Int), it.t = 0 → it.check now = false) := by
  refine ⟨?_, ?_, ?_⟩
  · intro it now h
    have h1 := (check_iff it now).mp h
    exact ⟨by omega, h1.2⟩
  · intro it now h1 h2
    exact (check_iff it now).mpr ⟨h1, h2⟩
  · intro it now h
    exact check_of_t_zero it now h

/-- Witness for C12: an item that expires at 160, seen at the clock reading
161. -/
theorem check_only_when_set_witness :
    item.check ⟨160, Value.int 1⟩ 161 = true ∧ (160 : Int) ≠ 0 ∧ (161 : Int) > 160 :=
  ⟨check_only_when_set.2.1 ⟨160, Value.int 1⟩ 161 (by decide) (by decide),
    check_only_when_set.1 ⟨160, Value.int 1⟩ 161 (by decide)⟩

/-- C13, as stated, fails at the boundary: an item with `t = 100` seen at the
clock reading `now = 100` has `t > 0` and `t ≤ now`, and is not live
(`t ≠ 0`, `t` not above `now`), yet `check` returns false.  It also fails for
a negative instant (the wrapped sum of a very long duration): with `t = -5` at
`now = 100` the item is not live and `check` returns false. -/
theorem check_boundary_counterexample :
    ¬ (item.check ⟨100, Value.nil⟩ 100 = true ↔
        (item.t ⟨100, Value.nil⟩ > 0 ∧ item.t ⟨100, Value.nil⟩ ≤ 100)) ∧
    ¬ (item.check ⟨100, Value.nil⟩ 100 = false ↔
        (item.t ⟨100, Value.nil⟩ = 0 ∨ item.t ⟨100, Value.nil⟩ > 100)) ∧
    ¬ (item.check ⟨-5, Value.nil⟩ 100 = false ↔
        (item.t ⟨-5, Value.nil⟩ = 0 ∨ item.t ⟨-5, Value.nil⟩ > 100)) := by
  decide

/-- C13, amended: for every item and every clock reading `now`, `check` returns
true if and only if `t > 0` and `t < now`, and returns false if and only if
`t ≤ 0` or `t ≥ now`; at `now = t` it returns false. -/
theorem check_strict :
    (∀ (it : item) (now : Int), it.check now = true ↔ (it.t > 0 ∧ it.t < now)) ∧
    (∀ (it : item) (now : Int), it.check now = false ↔ (it.t ≤ 0 ∨ it.t ≥ now)) ∧
    (∀ it : item, it.check it.t = false) := by
  refine ⟨fun it now => check_iff it now, ?_, ?_⟩
  · intro it now
    rw [← Bool.not_eq_true, check_iff]
    omega
  · intro it
    rw [← Bool.not_eq_true, check_iff]
    omega

/-! ## `Range` -/

/-- C14 (the code departs from the claim): `cacheMap.Range` visits the entries
once each, in map order, and calls the visitor with the key and the stored
value, but `cacheSyncMap.Range` calls it with the stored `item` struct.  With
"a" holding 1 (expired at 50) and "b" holding 2, `cacheMap.Range` makes the
calls `("a", 1)`, `("b", 2)`; on the same content `cacheSyncMap.Range` makes the
calls `("a", item{50, 1})`, `("b", item{0, 2})`, while `Get("a")` is
`(1, true)`. -/
theorem syncmap_range_passes_item :
    (∀ cm : cacheMap, cm.Range.map Prod.fst = cm.m.map Prod.fst ∧
      cm.Range.map Prod.snd = cm.m.map (fun e => e.2.v)) ∧
    (∀ csm : cacheSyncMap, csm.Range.map Prod.fst = csm.m.map Prod.fst ∧
      csm.Range.map Prod.snd = csm.m.map (fun e => Value.boxed e.2.t e.2.v)) ∧
    (cacheMap.mk [("a", ⟨50, Value.int 1⟩), ("b", ⟨0, Value.int 2⟩)] 60 0 0 none 0).Range =
      [("a", Value.int 1), ("b", Value.int 2)] ∧
    (cacheSyncMap.mk [(Value.str "a", ⟨50, Value.int 1⟩), (Value.str "b", ⟨0, Value.int 2⟩)]
        60 none 0 0 0).Range =
      [(Value.str "a", Value.boxed 50 (Value.int 1)),
        (Value.str "b", Value.boxed 0 (Value.int 2))] ∧
    (cacheSyncMap.mk [(Value.str "a", ⟨50, Value.int 1⟩), (Value.str "b", ⟨0, Value.int 2⟩)]
        60 none 0 0 0).Get (Value.str "a") = (Value.int 1, true) := by
  refine ⟨fun cm => ?_, fun csm => ?_, by decide, by decide, by decide⟩
  · simp [cacheMap.Range, Function.comp_def]
  · simp [cacheSyncMap.Range, item.box, Function.comp_def]

/-! ## The schedule after a sweep -/

/-- C15 (the code departs from the claim): the loop of `_clear` also assigns the
expiration instant 0 of an entry without expiration to `min`, so the delay the
sweep stores depends on the iteration order.  With "c" expiring at 1000 and "b"
without expiration, a sweep at 250 that visits "c" before "b" stores `nc = 0`
although "c" survives with an expiration set; visiting "b" before "c" it stores
`nc = 750`.  Whenever the entry visited last has no expiration the sweep stores
`nc = 0`, whatever the other entries and the clock readings. -/
theorem sweep_min_depends_on_order :
    ((cacheMap.mk [("c", ⟨1000, Value.int 3⟩), ("b", ⟨0, Value.int 2⟩)] 60 900 1000 none
        0)._clear 250) =
      cacheMap.mk [("c", ⟨1000, Value.int 3⟩), ("b", ⟨0, Value.int 2⟩)] 60 0 1000 none 0 ∧
    ((cacheMap.mk [("b", ⟨0, Value.int 2⟩), ("c", ⟨1000, Value.int 3⟩)] 60 900 1000 none
        0)._clear 250) =
      cacheMap.mk [("b", ⟨0, Value.int 2⟩), ("c", ⟨1000, Value.int 3⟩)] 60 750 1000 none 0 ∧
    ((cacheSyncMap.mk [(Value.str "c", ⟨1000, Value.int 3⟩), (Value.str "b", ⟨0, Value.int 2⟩)]
        60 none 900 1000 0)._clear 250).nc = 0 ∧
    ((cacheSyncMap.mk [(Value.str "b", ⟨0, Value.int 2⟩), (Value.str "c", ⟨1000, Value.int 3⟩)]
        60 none 900 1000 0)._clear 250).nc = 750 ∧
    (∀ (cm : cacheMap) (k : String) (v : Value) (clk : Nat → Int),
      (cacheMap._clearAt { cm with m := cm.m ++ [(k, ⟨0, v⟩)] } clk).nc = 0) ∧
    (∀ (csm : cacheSyncMap) (k v : Value) (clk : Nat → Int),
      (cacheSyncMap._clearAt { csm with m := csm.m ++ [(k, ⟨0, v⟩)] } clk).nc = 0) := by
  have key : ∀ {κ : Type} [DecidableEq κ] (clk : Nat → Int) (m : List (κ × item)) (k : κ)
      (v : Value), sweepDelay clk (sweepLoop clk (m ++ [(k, ⟨0, v⟩)])).2 = 0 := by
    intro κ _ clk m k v
    unfold sweepLoop
    rw [List.foldl_append, List.foldl_cons, List.foldl_nil]
    generalize List.foldl (sweepStep clk) (m ++ [(k, ⟨0, v⟩)], 0, 0) m = acc
    unfold sweepStep sweepDelay
    simp only [check_of_t_zero ⟨0, v⟩ _ rfl, Bool.false_eq_true, if_false]
    by_cases h : acc.2.1 = 0 ∨ (0 : Int) < acc.2.1
    · simp [h]
    · rw [if_neg h]
      have h1 : ¬ acc.2.1 > 0 := fun hh => h (Or.inr hh)
      simp [h1]
  refine ⟨by decide, by decide, by decide, by decide, ?_, ?_⟩
  · intro cm k v clk
    exact key clk cm.m k v
  · intro csm k v clk
    exact key clk csm.m k v

/-- C16 (the code departs from the claim): `_clear` stores a new `nc` and never
writes `nt`.  On `New(60)`, "c" is set to expire at 300 and "a" at 150 (so
`nc = 50`, `nt = 150`); the sweep at 160 removes "a", finds the minimum 300 and
stores `nc = 140`, but `nt` is still 150.  A following `Set("d", _, 40)` at 160
(expiring at 200, before the scheduled sweep at 300) compares with the stale
`nt` and neither changes the schedule nor signals the reaper. -/
theorem sweep_leaves_nt :
    (∀ (cm : cacheMap) (clk : Nat → Int), (cm._clearAt clk).nt = cm.nt) ∧
    (∀ (csm : cacheSyncMap) (clk : Nat → Int), (csm._clearAt clk).nt = csm.nt) ∧
    cmRun [cmOp.Set "c" (Value.int 3) 200 100, cmOp.recv, cmOp.Set "a" (Value.int 1) 50 100,
        cmOp.recv] (New 60) =
      some (cacheMap.mk [("a", ⟨150, Value.int 1⟩), ("c", ⟨300, Value.int 3⟩)] 60 50 150
        none 0) ∧
    (cacheMap.mk [("a", ⟨150, Value.int 1⟩), ("c", ⟨300, Value.int 3⟩)] 60 50 150 none
        0)._clear 160 =
      cacheMap.mk [("c", ⟨300, Value.int 3⟩)] 60 140 150 none 0 ∧
    (cacheMap.mk [("c", ⟨300, Value.int 3⟩)] 60 140 150 none 0).Set "d" (Value.int 4) 40 160 =
      some (cacheMap.mk [("d", ⟨200, Value.int 4⟩), ("c", ⟨300, Value.int 3⟩)] 60 140 150
        none 0) ∧
    (cacheSyncMap.mk [(Value.str "a", ⟨150, Value.int 1⟩), (Value.str "c", ⟨300, Value.int 3⟩)]
        60 none 50 150 0)._clear 160 =
      cacheSyncMap.mk [(Value.str "c", ⟨300, Value.int 3⟩)] 60 none 140 150 0 := by
  refine ⟨fun cm clk => rfl, fun csm clk => rfl, by decide, by decide, by decide, by decide⟩

/-- C17 (the code departs from the claim): on `New(60)`, "b" is set without
expiration, "c" to expire at 1000 and "a" at 200, all at clock reading 100, the
reaper taking each wake signal.  The sweep at 250 removes "a", visits "c" and
then "b", and stores `nc = 0`.  `Set("d", _, 5000)` at 300 then finds `nc = 0`
and sets `nt = 5300`, while "c" is still stored, not expired at 300, with the
expiration instant 1000: `nt` is above the least expiration instant of the live
entries.  The same run on `NewS(60)` ends the same way. -/
theorem schedule_invariant_broken :
    cmRun [cmOp.Set "b" (Value.int 2) NoExpiration 100, cmOp.Set "c" (Value.int 3) 900 100,
        cmOp.recv, cmOp.Set "a" (Value.int 1) 100 100, cmOp.recv, cmOp.sweep (fun _ => 250),
        cmOp.Set "d" (Value.int 4) 5000 300] (New 60) =
      some (cacheMap.mk [("d", ⟨5300, Value.int 4⟩), ("c", ⟨1000, Value.int 3⟩),
        ("b", ⟨0, Value.int 2⟩)] 60 5000 5300 none 1) ∧
    mapLoad (cacheMap.mk [("d", ⟨5300, Value.int 4⟩), ("c", ⟨1000, Value.int 3⟩),
        ("b", ⟨0, Value.int 2⟩)] 60 5000 5300 none 1).m "c" = some ⟨1000, Value.int 3⟩ ∧
    item.check ⟨1000, Value.int 3⟩ 300 = false ∧ (1000 : Int) > 300 ∧
    ¬ (cacheMap.mk [("d", ⟨5300, Value.int 4⟩), ("c", ⟨1000, Value.int 3⟩),
        ("b", ⟨0, Value.int 2⟩)] 60 5000 5300 none 1).nt ≤ 1000 ∧
    (csmRun [csmOp.Set (Value.str "b") (Value.int 2) NoExpiration 100,
        csmOp.Set (Value.str "c") (Value.int 3) 900 100, csmOp.recv,
        csmOp.Set (Value.str "a") (Value.int 1) 100 100, csmOp.recv,
        csmOp.sweep (fun _ => 250), csmOp.Set (Value.str "d") (Value.int 4) 5000 300]
        (NewS 60)).map (fun s => (s.m, s.nc, s.nt)) =
      some ([(Value.str "d", ⟨5300, Value.int 4⟩), (Value.str "c", ⟨1000, Value.int 3⟩),
        (Value.str "b", ⟨0, Value.int 2⟩)], 5000, 5300) := by
  decide

/-! ## The schedule after a write -/

theorem chanSend_eq_some {n n1 : Nat} (h : chanSend n = some n1) : n = 0 ∧ n1 = n + 1 := by
  unfold chanSend nhCap at h
  split_ifs at h with hn
  simp only [Option.some.injEq] at h
  omega

theorem cm_set_schedule {cm : cacheMap} {key : String} {val : Value} {d : Int}
    {replace : Bool} {nowTime : Int} {res : cacheMap × Value × Bool}
    (h : cm.set key val d replace nowTime = some res) :
    (d = NoExpiration → res.1.nc = cm.nc ∧ res.1.nt = cm.nt ∧ res.1.nh = cm.nh) ∧
    (d ≠ NoExpiration →
      ((cm.nc = 0 ∨ wrap64 (nowTime + if d = DefaultExpiration then cm.et else d) < cm.nt) →
        res.1.nc = (if d = DefaultExpiration then cm.et else d) ∧
        res.1.nt = wrap64 (nowTime + if d = DefaultExpiration then cm.et else d) ∧
        cm.nh = 0 ∧ res.1.nh = 1) ∧
      (¬ (cm.nc = 0 ∨ wrap64 (nowTime + if d = DefaultExpiration then cm.et else d) < cm.nt) →
        res.1.nc = cm.nc ∧ res.1.nt = cm.nt ∧ res.1.nh = cm.nh)) := by
  unfold cacheMap.set at h
  by_cases hd : d = NoExpiration
  · rw [if_pos hd] at h
    simp only [Option.some.injEq] at h
    subst h
    exact ⟨fun _ => ⟨rfl, rfl, rfl⟩, fun hn => absurd hd hn⟩
  · rw [if_neg hd] at h
    dsimp only at h
    refine ⟨fun hn => absurd hn hd, fun _ => ?_⟩
    by_cases hs : cm.nc = 0 ∨
        wrap64 (nowTime + if d = DefaultExpiration then cm.et else d) < cm.nt
    · rw [if_pos hs] at h
      cases hc : chanSend cm.nh with
      | none => simp [hc] at h
      | some n =>
        simp only [hc, Option.some.injEq] at h
        subst h
        have hn := chanSend_eq_some hc
        refine ⟨fun _ => ⟨rfl, rfl, hn.1, ?_⟩, fun hns => absurd hs hns⟩
        simp only
        omega
    · rw [if_neg hs] at h
      simp only [Option.some.injEq] at h
      subst h
      exact ⟨fun hss => absurd hss hs, fun _ => ⟨rfl, rfl, rfl⟩⟩

theorem csm_set_schedule {csm : cacheSyncMap} {key val : Value} {d : Int}
    {replace : Bool} {nowTime : Int} {res : cacheSyncMap × Value × Bool}
    (h : csm.set key val d replace nowTime = some res) :
    (d = NoExpiration → res.1.nc = csm.nc ∧ res.1.nt = csm.nt ∧ res.1.nh = csm.nh) ∧
    (d ≠ NoExpiration →
      ((csm.nc = 0 ∨ wrap64 (nowTime + if d = DefaultExpiration then csm.et else d) < csm.nt) →
        res.1.nc = (if d = DefaultExpiration then csm.et else d) ∧
        res.1.nt = wrap64 (nowTime + if d = DefaultExpiration then csm.et else d) ∧
        csm.nh = 0 ∧ res.1.nh = 1) ∧
      (¬ (csm.nc = 0 ∨
          wrap64 (nowTime + if d = DefaultExpiration then csm.et else d) < csm.nt) →
        res.1.nc = csm.nc ∧ res.1.nt = csm.nt ∧ res.1.nh = csm.nh)) := by
  unfold cacheSyncMap.set at h
  by_cases hd : d = NoExpiration
  · rw [if_pos hd] at h
    simp only [Option.some.injEq] at h
    subst h
    exact ⟨fun _ => ⟨rfl, rfl, rfl⟩, fun hn => absurd hd hn⟩
  · rw [if_neg hd] at h
    dsimp only at h
    refine ⟨fun hn => absurd hn hd, fun _ => ?_⟩
    by_cases hs : csm.nc = 0 ∨
        wrap64 (nowTime + if d = DefaultExpiration then csm.et else d) < csm.nt
    · rw [if_pos hs] at h
      cases hc : chanSend csm.nh with
      | none => simp [hc] at h
      | some n =>
        simp only [hc, Option.some.injEq] at h
        subst h
        have hn := chanSend_eq_some hc
        refine ⟨fun _ => ⟨rfl, rfl, hn.1, ?_⟩, fun hns => absurd hs hns⟩
        simp only
        omega
    · rw [if_neg hs] at h
      simp only [Option.some.injEq] at h
      subst h
      exact ⟨fun hss => absurd hss hs, fun _ => ⟨rfl, rfl, rfl⟩⟩

/-- C18: in both stores `set` (the body of `Set`, `Replace` and `Add`) returns
whenever the wake channel is empty or the duration is `NoExpiration`.  When it
returns from a write with a duration other than `NoExpiration`, with `ex` the
duration used and `t = now + ex` the expiration instant: if `nc = 0` or
`t < nt` held before, then afterwards `nc = ex`, `nt = t` and one wake signal
has been put into the (empty) channel; otherwise `nc`, `nt` and the channel are
as before.  A write with `NoExpiration` leaves `nc`, `nt` and the channel as
they were. -/
theorem write_schedules :
    (∀ (cm : cacheMap) (key : String) (val : Value) (d : Int) (replace : Bool) (now : Int)
      (res : cacheMap × Value × Bool), cm.set key val d replace now = some res →
      (d = NoExpiration → res.1.nc = cm.nc ∧ res.1.nt = cm.nt ∧ res.1.nh = cm.nh) ∧
      (d ≠ NoExpiration →
        ((cm.nc = 0 ∨ wrap64 (now + if d = DefaultExpiration then cm.et else d) < cm.nt) →
          res.1.nc = (if d = DefaultExpiration then cm.et else d) ∧
          res.1.nt = wrap64 (now + if d = DefaultExpiration then cm.et else d) ∧
          cm.nh = 0 ∧ res.1.nh = 1) ∧
        (¬ (cm.nc = 0 ∨ wrap64 (now + if d = DefaultExpiration then cm.et else d) < cm.nt) →
          res.1.nc = cm.nc ∧ res.1.nt = cm.nt ∧ res.1.nh = cm.nh))) ∧
    (∀ (csm : cacheSyncMap) (key val : Value) (d : Int) (replace : Bool) (now : Int)
      (res : cacheSyncMap × Value × Bool), csm.set key val d replace now = some res →
      (d = NoExpiration → res.1.nc = csm.nc ∧ res.1.nt = csm.nt ∧ res.1.nh = csm.nh) ∧
      (d ≠ NoExpiration →
        ((csm.nc = 0 ∨ wrap64 (now + if d = DefaultExpiration then csm.et else d) < csm.nt) →
          res.1.nc = (if d = DefaultExpiration then csm.et else d) ∧
          res.1.nt = wrap64 (now + if d = DefaultExpiration then csm.et else d) ∧
          csm.nh = 0 ∧ res.1.nh = 1) ∧
        (¬ (csm.nc = 0 ∨
            wrap64 (now + if d = DefaultExpiration then csm.et else d) < csm.nt) →
          res.1.nc = csm.nc ∧ res.1.nt = csm.nt ∧ res.1.nh = csm.nh))) ∧
    (∀ (cm : cacheMap) (key : String) (val : Value) (d : Int) (replace : Bool) (now : Int),
      cm.nh = 0 ∨ d = NoExpiration → (cm.set key val d replace now).isSome = true) ∧
    (∀ (csm : cacheSyncMap) (key val : Value) (d : Int) (replace : Bool) (now : Int),
      csm.nh = 0 ∨ d = NoExpiration → (csm.set key val d replace now).isSome = true) :=
  ⟨fun _ _ _ _ _ _ _ h => cm_set_schedule h, fun _ _ _ _ _ _ _ h => csm_set_schedule h,
    cm_set_returns, csm_set_returns⟩

/-- Witness for C18: with "c" scheduled for 300, a write of "a" with the
duration 50 at clock reading 100 expires at 150, sooner than `nt = 300`; on both
stores it returns and moves the schedule. -/
theorem write_schedules_witness :
    (cacheMap.mk [("c", ⟨300, Value.int 3⟩)] 60 200 300 none 0).set "a" (Value.int 1) 50 true
        100 =
      some (cacheMap.mk [("a", ⟨150, Value.int 1⟩), ("c", ⟨300, Value.int 3⟩)] 60 50 150
        none 1, Value.boxed 0 Value.nil, false) ∧
    ((cacheMap.mk [("a", ⟨150, Value.int 1⟩), ("c", ⟨300, Value.int 3⟩)] 60 50 150 none 1).nc =
        50 ∧
      (cacheMap.mk [("a", ⟨150, Value.int 1⟩), ("c", ⟨300, Value.int 3⟩)] 60 50 150 none
        1).nt = 150 ∧
      (cacheMap.mk [("c", ⟨300, Value.int 3⟩)] 60 200 300 none 0).nh = 0 ∧
      (cacheMap.mk [("a", ⟨150, Value.int 1⟩), ("c", ⟨300, Value.int 3⟩)] 60 50 150 none
        1).nh = 1) ∧
    ((cacheMap.mk [("c", ⟨300, Value.int 3⟩)] 60 200 300 none 0).set "a" (Value.int 1) 50 true
        100).isSome = true ∧
    ((cacheSyncMap.mk [(Value.str "c", ⟨300, Value.int 3⟩)] 60 none 200 300 0).set
        (Value.str "a") (Value.int 1) 50 false 100).isSome = true ∧
    ((cacheSyncMap.mk [(Value.str "a", ⟨150, Value.int 1⟩), (Value.str "c", ⟨300, Value.int 3⟩)]
        60 none 50 150 1).nc = 50 ∧
      (cacheSyncMap.mk [(Value.str "a", ⟨150, Value.int 1⟩),
        (Value.str "c", ⟨300, Value.int 3⟩)] 60 none 50 150 1).nt = 150 ∧
      (cacheSyncMap.mk [(Value.str "c", ⟨300, Value.int 3⟩)] 60 none 200 300 0).nh = 0 ∧
      (cacheSyncMap.mk [(Value.str "a", ⟨150, Value.int 1⟩),
        (Value.str "c", ⟨300, Value.int 3⟩)] 60 none 50 150 1).nh = 1) :=
  ⟨by decide,
    ((write_schedules.1 (cacheMap.mk [("c", ⟨300, Value.int 3⟩)] 60 200 300 none 0) "a"
      (Value.int 1) 50 true 100
      (cacheMap.mk [("a", ⟨150, Value.int 1⟩), ("c", ⟨300, Value.int 3⟩)] 60 50 150 none 1,
        Value.boxed 0 Value.nil, false) (by decide)).2 (by decide)).1 (by decide),
    write_schedules.2.2.1 (cacheMap.mk [("c", ⟨300, Value.int 3⟩)] 60 200 300 none 0) "a"
      (Value.int 1) 50 true 100 (Or.inl rfl),
    write_schedules.2.2.2 (cacheSyncMap.mk [(Value.str "c", ⟨300, Value.int 3⟩)] 60 none 200
      300 0) (Value.str "a") (Value.int 1) 50 false 100 (Or.inl rfl),
    ((write_schedules.2.1 (cacheSyncMap.mk [(Value.str "c", ⟨300, Value.int 3⟩)] 60 none 200
      300 0) (Value.str "a") (Value.int 1) 50 false 100
      (cacheSyncMap.mk [(Value.str "a", ⟨150, Value.int 1⟩),
        (Value.str "c", ⟨300, Value.int 3⟩)] 60 none 50 150 1, Value.nil, false)
      (by decide)).2 (by decide)).1 (by decide)⟩

/-! ## The wake signal -/

/-- C19, as stated, fails: `Set("a", 1, 100)` at clock reading 100 on `New(60)`
leaves one signal in the channel; with that signal pending, `Set("b", 2, 50)`
(expiring at 150, sooner than `nt = 200`) has to send into the full channel and
does not return, in both stores. -/
theorem set_blocks_on_full_channel :
    (New 60).Set "a" (Value.int 1) 100 100 =
      some (cacheMap.mk [("a", ⟨200, Value.int 1⟩)] 60 100 200 none 1) ∧
    (cacheMap.mk [("a", ⟨200, Value.int 1⟩)] 60 100 200 none 1).Set "b" (Value.int 2) 50 100 =
      none ∧
    (cacheMap.mk [("a", ⟨200, Value.int 1⟩)] 60 100 200 none 1).Replace "b" (Value.int 2) 50
      100 = none ∧
    (NewS 60).Set (Value.str "a") (Value.int 1) 100 100 =
      some (cacheSyncMap.mk [(Value.str "a", ⟨200, Value.int 1⟩)] 60 none 100 200 1) ∧
    (cacheSyncMap.mk [(Value.str "a", ⟨200, Value.int 1⟩)] 60 none 100 200 1).Set
      (Value.str "b") (Value.int 2) 50 100 = none := by
  decide

theorem chanSend_eq_none (n : Nat) : chanSend n = none ↔ nhCap ≤ n := by
  unfold chanSend
  split_ifs with h
  · simp only [reduceCtorEq, false_iff]
    omega
  · simp only [true_iff]
    omega

theorem cm_set_eq_none (cm : cacheMap) (key : String) (val : Value) (d : Int)
    (replace : Bool) (now : Int) :
    cm.set key val d replace now = none ↔
      (d ≠ NoExpiration ∧
        (cm.nc = 0 ∨ wrap64 (now + if d = DefaultExpiration then cm.et else d) < cm.nt) ∧
        nhCap ≤ cm.nh) := by
  unfold cacheMap.set
  by_cases hd : d = NoExpiration
  · rw [if_pos hd]
    simp [hd]
  · rw [if_neg hd]
    dsimp only
    by_cases hs : cm.nc = 0 ∨
        wrap64 (now + if d = DefaultExpiration then cm.et else d) < cm.nt
    · rw [if_pos hs]
      cases hc : chanSend cm.nh with
      | none =>
        have := (chanSend_eq_none cm.nh).mp hc
        simp [hd, hs, this]
      | some n =>
        have hn : ¬ nhCap ≤ cm.nh := fun hh => by
          rw [(chanSend_eq_none cm.nh).mpr hh] at hc
          exact Option.noConfusion hc
        simp [hn]
    · rw [if_neg hs]
      simp [hs]

theorem csm_set_eq_none (csm : cacheSyncMap) (key val : Value) (d : Int)
    (replace : Bool) (now : Int) :
    csm.set key val d replace now = none ↔
      (d ≠ NoExpiration ∧
        (csm.nc = 0 ∨ wrap64 (now + if d = DefaultExpiration then csm.et else d) < csm.nt) ∧
        nhCap ≤ csm.nh) := by
  unfold cacheSyncMap.set
  by_cases hd : d = NoExpiration
  · rw [if_pos hd]
    simp [hd]
  · rw [if_neg hd]
    dsimp only
    by_cases hs : csm.nc = 0 ∨
        wrap64 (now + if d = DefaultExpiration then csm.et else d) < csm.nt
    · rw [if_pos hs]
      cases hc : chanSend csm.nh with
      | none =>
        have := (chanSend_eq_none csm.nh).mp hc
        simp [hd, hs, this]
      | some n =>
        have hn : ¬ nhCap ≤ csm.nh := fun hh => by
          rw [(chanSend_eq_none csm.nh).mpr hh] at hc
          exact Option.noConfusion hc
        simp [hn]
    · rw [if_neg hs]
      simp [hs]

/-- C19, amended: with the wake channel a buffer of capacity 1, in both stores
`set` (the body of `Set`, `Replace` and `Add`) fails to return exactly when the
write has a duration other than `NoExpiration`, establishes a sooner schedule
(`nc = 0` or `t < nt`) and a signal is already pending; every other write
returns.  In a state with one pending signal every write returns once the
reaper has taken that signal. -/
theorem set_returns_unless_signal_pending :
    (∀ (cm : cacheMap) (key : String) (val : Value) (d : Int) (replace : Bool) (now : Int),
      cm.set key val d replace now = none ↔
        (d ≠ NoExpiration ∧
          (cm.nc = 0 ∨ wrap64 (now + if d = DefaultExpiration then cm.et else d) < cm.nt) ∧
          nhCap ≤ cm.nh)) ∧
    (∀ (csm : cacheSyncMap) (key val : Value) (d : Int) (replace : Bool) (now : Int),
      csm.set key val d replace now = none ↔
        (d ≠ NoExpiration ∧
          (csm.nc = 0 ∨
            wrap64 (now + if d = DefaultExpiration then csm.et else d) < csm.nt) ∧
          nhCap ≤ csm.nh)) ∧
    (∀ (cm : cacheMap) (key : String) (val : Value) (d : Int) (replace : Bool) (now : Int),
      cm.nh = 1 → (cm.recv.bind (fun c => c.set key val d replace now)).isSome = true) ∧
    (∀ (csm : cacheSyncMap) (key val : Value) (d : Int) (replace : Bool) (now : Int),
      csm.nh = 1 → (csm.recv.bind (fun c => c.set key val d replace now)).isSome = true) := by
  refine ⟨cm_set_eq_none, csm_set_eq_none, ?_, ?_⟩
  · intro cm key val d replace now h
    simp only [cacheMap.recv, chanRecv, h, Nat.lt_one_iff, if_true, Option.map_some',
      Option.some_bind]
    exact cm_set_isSome _ key val d replace now rfl
  · intro csm key val d replace now h
    simp only [cacheSyncMap.recv, chanRecv, h, Nat.lt_one_iff, if_true, Option.map_some',
      Option.some_bind]
    exact csm_set_isSome _ key val d replace now rfl

/-- Witness for C19, amended: the write that did not return with the signal
pending returns after the reaper has taken the signal. -/
theorem set_returns_unless_signal_pending_witness :
    (cacheMap.mk [("a", ⟨200, Value.int 1⟩)] 60 100 200 none 1).nh = 1 ∧
      (cacheMap.mk [("a", ⟨200, Value.int 1⟩)] 60 100 200 none 1).set "b" (Value.int 2) 50 true
        100 = none ∧
      ((cacheMap.mk [("a", ⟨200, Value.int 1⟩)] 60 100 200 none 1).recv.bind
        (fun c => c.set "b" (Value.int 2) 50 true 100)).isSome = true :=
  ⟨rfl, by decide,
    set_returns_unless_signal_pending.2.2.1
      (cacheMap.mk [("a", ⟨200, Value.int 1⟩)] 60 100 200 none 1) "b" (Value.int 2) 50 true 100
      rfl⟩

/-! ## The callback -/

theorem cm_set_cb (cm : cacheMap) (f : Option Nat) (key : String) (val : Value) (d : Int)
    (replace : Bool) (now : Int) :
    cacheMap.set { cm with cb := f } key val d replace now =
      (cm.set key val d replace now).map (fun r => ({ r.1 with cb := f }, r.2)) := by
  unfold cacheMap.set cacheMap.loadOld
  dsimp only
  split_ifs <;> first | rfl | (cases chanSend cm.nh <;> rfl)

theorem csm_set_cb (csm : cacheSyncMap) (f : Option Nat) (key val : Value) (d : Int)
    (replace : Bool) (now : Int) :
    cacheSyncMap.set { csm with cb := f } key val d replace now =
      (csm.set key val d replace now).map (fun r => ({ r.1 with cb := f }, r.2)) := by
  unfold cacheSyncMap.set
  dsimp only
  split_ifs <;> first | rfl | (cases chanSend csm.nh <;> rfl)

/-- C20: in both stores `ClearCallback(f)` stores `f` in `cb`, returns the nil
error and leaves the mapping, the default duration, the schedule and the
channel as they were; and no operation reads `cb`: `Get`, `Range`, `set` (the
body of `Set`, `Replace` and `Add`), `Add`, `Delete`, `Clean` and the sweep
return the same results and leave the same mapping, schedule and channel
whether `cb` holds a callback `f` or not, the sweep that deletes expired
entries included. -/
theorem callback_never_used :
    (∀ (cm : cacheMap) (f : Option Nat),
      (cm.ClearCallback f).1 = { cm with cb := f } ∧ (cm.ClearCallback f).2 = none ∧
      (cm.ClearCallback f).1.m = cm.m ∧ (cm.ClearCallback f).1.nc = cm.nc ∧
      (cm.ClearCallback f).1.nt = cm.nt ∧ (cm.ClearCallback f).1.nh = cm.nh) ∧
    (∀ (cm : cacheMap) (f : Option Nat),
      (∀ k, cacheMap.Get { cm with cb := f } k = cm.Get k) ∧
      cacheMap.Range { cm with cb := f } = cm.Range ∧
      (∀ key val d replace now, cacheMap.set { cm with cb := f } key val d replace now =
        (cm.set key val d replace now).map (fun r => ({ r.1 with cb := f }, r.2))) ∧
      (∀ k, cacheMap.Delete { cm with cb := f } k =
        ({ (cm.Delete k).1 with cb := f }, (cm.Delete k).2)) ∧
      cacheMap.Clean { cm with cb := f } = ({ cm.Clean.1 with cb := f }, cm.Clean.2) ∧
      (∀ clk, cacheMap._clearAt { cm with cb := f } clk = { cm._clearAt clk with cb := f })) ∧
    (∀ (csm : cacheSyncMap) (f : Option Nat),
      (csm.ClearCallback f).1 = { csm with cb := f } ∧ (csm.ClearCallback f).2 = none ∧
      (csm.ClearCallback f).1.m = csm.m ∧ (csm.ClearCallback f).1.nc = csm.nc ∧
      (csm.ClearCallback f).1.nt = csm.nt ∧ (csm.ClearCallback f).1.nh = csm.nh) ∧
    (∀ (csm : cacheSyncMap) (f : Option Nat),
      (∀ k, cacheSyncMap.Get { csm with cb := f } k = csm.Get k) ∧
      cacheSyncMap.Range { csm with cb := f } = csm.Range ∧
      (∀ key val d replace now, cacheSyncMap.set { csm with cb := f } key val d replace now =
        (csm.set key val d replace now).map (fun r => ({ r.1 with cb := f }, r.2))) ∧
      (∀ key val d now, cacheSyncMap.Add { csm with cb := f } key val d now =
        (csm.Add key val d now).map (fun r => ({ r.1 with cb := f }, r.2))) ∧
      (∀ k, cacheSyncMap.Delete { csm with cb := f } k =
        ({ (csm.Delete k).1 with cb := f }, (csm.Delete k).2)) ∧
      cacheSyncMap.Clean { csm with cb := f } =
        csm.Clean.map (fun r => ({ r.1 with cb := f }, r.2)) ∧
      (∀ clk, cacheSyncMap._clearAt { csm with cb := f } clk =
        { csm._clearAt clk with cb := f })) := by
  refine ⟨fun cm f => ⟨rfl, rfl, rfl, rfl, rfl, rfl⟩, fun cm f => ?_,
    fun csm f => ⟨rfl, rfl, rfl, rfl, rfl, rfl⟩, fun csm f => ?_⟩
  · exact ⟨fun k => rfl, rfl, cm_set_cb cm f, fun k => rfl, rfl, fun clk => rfl⟩
  · refine ⟨fun k => rfl, rfl, csm_set_cb csm f, ?_, fun k => rfl, ?_, fun clk => rfl⟩
    · intro key val d now
      unfold cacheSyncMap.Add
      dsimp only
      cases hl : mapLoad csm.m key with
      | some cur => rfl
      | none =>
        simp only [csm_set_cb csm f, Option.map_map]
        rfl
    · unfold cacheSyncMap.Clean
      dsimp only
      cases chanSend csm.nh <;> rfl

end Cache
